import Mathlib

/-!
Verification development for the `jest-mock` module
(`src/packages/jest-mock/src/index.js`): a shallow embedding of

* the instrumented-callable runtime (`mockConstructor` and the configuration
  surface `mockReturnValueOnce` / `mockReturnValue` / `mockImplementationOnce` /
  `mockImplementation` / `mockClear`, lines 212-330 of the source),
* the component factory `makeComponent` (lines 198-335),
* the mock generator `generateMock` / `generateFromMetadata` (lines 337-373),
* the metadata extractor `getMetadata` with its identity table (lines 375-455),
* the classifier `getType` (lines 82-102), the member enumerator `getSlots`
  (lines 128-152) and `isMockFunction` (lines 457-459),

together with theorems about override precedence, the call ledger, identity
sharing during generation, refID density during extraction, and the error
behaviour of `makeComponent` and `isMockFunction`.

Modelling conventions:

* JavaScript values are `Value`: primitives (`undefined`, `null`, booleans,
  integer numbers, strings) plus references into an explicit heap of objects;
  `===` on objects is address equality, exactly as in the runtime.
* Substitute implementations configured through the mock API are drawn from a
  small pure behaviour language `Impl`; the runtime only ever *applies* an
  implementation, so any language of functions is adequate, and a pure one
  keeps every definition executable.
* The closure state of one instrumented callable
  (`isReturnValueLastSet`, `defaultReturnValue`, `mockImpl`,
  `specificReturnValues`, `specificMockImpls`, `calls`, `instances`,
  source lines 213-222) is the structure `MockState`.  The flat functions
  below act on it directly, exactly as the source closures do; the heap model
  stores a `MockState` inside each mock-function object.
* Recursive graph walks (`getMetadata` over a possibly cyclic heap, generation
  over a metadata tree, invocation that may re-enter another mock through
  `_protoImpl`) take an explicit fuel argument and recurse structurally on it,
  so that the kernel can evaluate them; every theorem either holds for all
  fuel values or is stated with enough fuel spelled out.
-/

/-- JavaScript primitive values as used by the mock engine: `undefined`,
`null`, booleans, (integer) numbers and strings. -/
inductive JsPrim where
  | undefined
  | null
  | bool (b : Bool)
  | num (n : Int)
  | str (s : String)
deriving DecidableEq

/-- A JavaScript value: a primitive, or a reference to a heap object.
Reference equality of objects (`===`) is equality of addresses. -/
inductive Value where
  | prim (p : JsPrim)
  | ref (a : Nat)
deriving DecidableEq

/-- Truthiness of a JavaScript value (`if (v)`).  `NaN` is not modelled;
numbers are integers. -/
def truthy : Value → Bool
  | .prim .undefined => false
  | .prim .null => false
  | .prim (.bool b) => b
  | .prim (.num n) => n ≠ 0
  | .prim (.str s) => s ≠ ""
  | .ref _ => true

/-- Behaviour language for substitute implementations handed to
`mockImplementation` / `mockImplementationOnce` and for implementations
captured in metadata (`mockImpl`).  The runtime only applies an
implementation to a receiver and an argument list (`fn.apply(this,
arguments)`, source lines 246, 270, 276), so a small pure language is a
faithful stand-in for arbitrary callables. -/
inductive Impl where
  | constFn (v : Value)
  | returnThis
  | argOrUndef (i : Nat)
deriving DecidableEq

/-- Application of an `Impl`: `impl.apply(thisV, args)`. -/
def applyImpl : Impl → Value → List Value → Value
  | .constFn v, _, _ => v
  | .returnThis, thisV, _ => thisV
  | .argOrUndef i, _, args => (args.get? i).getD (.prim .undefined)

/-- The closure state of one instrumented callable: the local variables of
`makeComponent`'s `'function'` branch (source lines 213-222).
`specificMockImpls` entries are `Option Impl` because
`mockImplementationOnce` pushes its argument verbatim and the argument may be
`undefined` (`none`). -/
structure MockState where
  isReturnValueLastSet : Bool := false
  defaultReturnValue : Value := .prim .undefined
  mockImpl : Option Impl := none
  specificReturnValues : List Value := []
  specificMockImpls : List (Option Impl) := []
  calls : List (List Value) := []
  instances : List Value := []
deriving DecidableEq

/-- `f.mockReturnValueOnce(value)` (source lines 292-297): queue a one-shot
return value and record that a return-value setter was the last
configuration call. -/
def mockReturnValueOnce (s : MockState) (v : Value) : MockState :=
  { s with isReturnValueLastSet := true
           specificReturnValues := s.specificReturnValues ++ [v] }

/-- `f.mockReturnValue(value)` (source lines 299-304): set the persistent
return value and record that a return-value setter was the last
configuration call. -/
def mockReturnValue (s : MockState) (v : Value) : MockState :=
  { s with isReturnValueLastSet := true
           defaultReturnValue := v }

/-- `f.mockImplementationOnce(fn)` (source lines 306-312): queue a one-shot
substitute implementation and record that an implementation setter was the
last configuration call. -/
def mockImplementationOnce (s : MockState) (fn : Option Impl) : MockState :=
  { s with isReturnValueLastSet := false
           specificMockImpls := s.specificMockImpls ++ [fn] }

/-- `f.mockImplementation(fn)` (source lines 314-319): set the persistent
substitute implementation and record that an implementation setter was the
last configuration call. -/
def mockImplementation (s : MockState) (fn : Option Impl) : MockState :=
  { s with isReturnValueLastSet := false
           mockImpl := fn }

/-- `f.mockReturnThis()` (source lines 321-324): shorthand for a persistent
implementation returning the receiver. -/
def mockReturnThis (s : MockState) : MockState :=
  mockImplementation s (some .returnThis)

/-- `f.mockClear()` (source lines 287-290): empty `calls` and `instances`,
touch nothing else. -/
def mockClear (s : MockState) : MockState :=
  { s with calls := [], instances := [] }

/-- `f.getMockImplementation()` (source line 284). -/
def getMockImplementation (s : MockState) : Option Impl :=
  s.mockImpl

/-- Plain (non-constructor) invocation of an instrumented callable: the body
of `mockConstructor` after the `this instanceof f` branch (source lines
229-231 and 249-279), acting on the closure state.  `protoImpl` stands for
the value of the `f._protoImpl` property (assigned only on instance copies
made during constructor emulation, line 241); here it is drawn from the
`Impl` language because the plain branch only applies it.  Returns the
updated closure state and the produced value.

Resolution mirrors the source exactly: if `isReturnValueLastSet`, shift the
one-shot return-value queue (an empty shift yields `undefined`) and fall back
to `defaultReturnValue` whenever the shifted value is `undefined`; if the
value so resolved is not `undefined` it is returned; otherwise the one-shot
implementation queue is shifted, falling back to `mockImpl` when the shift
yields `undefined`, and a found implementation is applied; otherwise a set
`_protoImpl` is applied; otherwise `undefined` is returned. -/
def mockConstructorPlain (s : MockState) (protoImpl : Option Impl)
    (thisV : Value) (args : List Value) : MockState × Value :=
  -- instances.push(this); calls.push(arguments)  (lines 230-231)
  let s1 : MockState :=
    { s with instances := s.instances ++ [thisV], calls := s.calls ++ [args] }
  -- lines 254-259
  let rvPair : Value × List Value :=
    if s1.isReturnValueLastSet then
      match s1.specificReturnValues with
      | [] => (s1.defaultReturnValue, [])
      | v :: rest => (if v = Value.prim .undefined then s1.defaultReturnValue else v, rest)
    else (Value.prim .undefined, s1.specificReturnValues)
  let returnValue := rvPair.1
  let s2 : MockState := { s1 with specificReturnValues := rvPair.2 }
  if returnValue ≠ Value.prim .undefined then (s2, returnValue)
  else
    -- lines 263-272: the implementation queue is shifted only when the
    -- return value resolved to undefined
    let shifted : Option (Option Impl) := s2.specificMockImpls.head?
    let s3 : MockState := { s2 with specificMockImpls := s2.specificMockImpls.tail }
    let specificMockImpl : Option Impl :=
      match shifted with
      | some (some i) => some i
      | some none => s3.mockImpl
      | none => s3.mockImpl
    match specificMockImpl with
    | some i => (s3, applyImpl i thisV args)
    | none =>
      -- lines 275-277: otherwise use prototype implementation
      match protoImpl with
      | some p => (s3, applyImpl p thisV args)
      | none => (s3, returnValue)

/-- Iterated plain invocation: fold `mockConstructorPlain` over a list of
(receiver, argument-list) pairs. -/
def mockCalls (s : MockState) (protoImpl : Option Impl) :
    List (Value × List Value) → MockState
  | [] => s
  | (t, a) :: rest =>
      mockCalls (mockConstructorPlain s protoImpl t a).1 protoImpl rest

/-- The spec-side decomposition of lines 254-259: the value the return-value
family resolves to (one-shot head if present, with `undefined` falling back
to the persistent default). -/
def rvResolve (s : MockState) : Value :=
  match s.specificReturnValues with
  | [] => s.defaultReturnValue
  | v :: _ => if v = Value.prim .undefined then s.defaultReturnValue else v

/-- The spec-side decomposition of lines 263-279: the value the
implementation family produces — one-shot head if present (an `undefined`
entry falls back to the persistent `mockImpl`), else the persistent
`mockImpl`; with no implementation found, the template implementation
`protoImpl`; otherwise `undefined`. -/
def implFamilyResult (s : MockState) (protoImpl : Option Impl)
    (thisV : Value) (args : List Value) : Value :=
  let smi : Option Impl :=
    match s.specificMockImpls.head? with
    | some (some i) => some i
    | some none => s.mockImpl
    | none => s.mockImpl
  match smi with
  | some i => applyImpl i thisV args
  | none =>
    match protoImpl with
    | some p => applyImpl p thisV args
    | none => .prim .undefined

/-- A metadata node (`MockFunctionMetadata`, source lines 14-22): a record
with optional fields `type`, `ref`, `refID`, `name`, `value`, `mockImpl`,
`members`.  `members` is a JavaScript object mapping member names to child
nodes, modelled as an association list (key uniqueness is guaranteed for any
JavaScript object); absence of `members` (`none`) is distinct from an empty
mapping, matching the truthiness checks `metadata.members && ...` and
`prototype.members` in the source.  `refID` and `ref` are the numeric ids
`getMetadata` assigns (`refs.size`). -/
inductive Metadata where
  | node (type : Option String) (ref : Option Nat) (refID : Option Nat)
      (name : Option String) (value : Option Value) (mockImpl : Option Impl)
      (members : Option (List (String × Metadata)))

/-- Field accessor: `metadata.type`. -/
def Metadata.type : Metadata → Option String
  | .node t _ _ _ _ _ _ => t

/-- Field accessor: `metadata.ref`. -/
def Metadata.ref : Metadata → Option Nat
  | .node _ r _ _ _ _ _ => r

/-- Field accessor: `metadata.refID`. -/
def Metadata.refID : Metadata → Option Nat
  | .node _ _ i _ _ _ _ => i

/-- Field accessor: `metadata.name`. -/
def Metadata.name : Metadata → Option String
  | .node _ _ _ n _ _ _ => n

/-- Field accessor: `metadata.value`. -/
def Metadata.value : Metadata → Option Value
  | .node _ _ _ _ v _ _ => v

/-- Field accessor: `metadata.mockImpl`. -/
def Metadata.mockImpl : Metadata → Option Impl
  | .node _ _ _ _ _ i _ => i

/-- Field accessor: `metadata.members`. -/
def Metadata.members : Metadata → Option (List (String × Metadata))
  | .node _ _ _ _ _ _ m => m

/-- The empty metadata node `{}` (the `|| {}` default on source line 348). -/
def Metadata.empty : Metadata :=
  .node none none none none none none none

/-- Lookup in an association list of members / fields (JavaScript property
read on a plain record). -/
def assocFind {α : Type} : List (String × α) → String → Option α
  | [], _ => none
  | (k, v) :: rest, s => if k = s then some v else assocFind rest s

/-- Assignment into an association list (JavaScript property write: update in
place if the key exists, else append, preserving insertion order). -/
def assocSet {α : Type} : List (String × α) → String → α → List (String × α)
  | [], s, v => [(s, v)]
  | (k, w) :: rest, s, v =>
      if k = s then (k, v) :: rest else (k, w) :: assocSet rest s v

/-- `if (!members) { members = {}; } members[slot] = sm` (source lines
429-432). -/
def membersSet (members : Option (List (String × Metadata))) (slot : String)
    (sm : Metadata) : List (String × Metadata) :=
  match members with
  | none => [(slot, sm)]
  | some ms => assocSet ms slot sm

/-- The member list of a `members` mapping, `[]` when absent: the entries
`getSlots(metadata.members)` enumerates.  `metadata.members` is a plain
JavaScript object, so `getSlots` on it returns exactly its own keys in
insertion order; since a JavaScript object cannot carry duplicate keys, the
iteration `forEach(slot => ... members[slot] ...)` visits exactly the entries
of the association list in order, which is how the folds below traverse it. -/
def memberEntries : Option (List (String × Metadata)) → List (String × Metadata)
  | none => []
  | some ms => ms

/-- A heap object.  `plain` objects carry an optional prototype link to
another heap object; a `none` link stands for the built-in
`Object.prototype`, which terminates every chain and whose own members the
source's `getSlots` never collects (its loop stops one step before the
`null`-prototyped terminus, line 150).  The other kinds delegate directly to
their built-in prototypes (`Function.prototype`, `Array.prototype`, ...),
which are likewise outside the modelled graph; for functions the source
breaks at `Function.prototype` explicitly (line 136).

A `mockFn` is an instrumented callable produced by `makeComponent`: it holds
its closure `MockState`, the captured behaviour-template metadata
(`metadata.members.prototype.members || {}`, lines 223-227) and its ordinary
properties.  A `nativeFn` is any other callable, with `Impl` semantics.
`collectionO` (Map/WeakMap/Set) is opaque: the engine captures collections by
reference and never walks them.  `hostO` is a value of a category the
classifier does not recognize (e.g. an exotic built-in). -/
inductive Obj where
  | plain (proto : Option Nat) (fields : List (String × Value))
  | arrayO (fields : List (String × Value))
  | regexpO (fields : List (String × Value))
  | collectionO
  | hostO
  | nativeFn (name : String) (impl : Impl) (fields : List (String × Value))
  | mockFn (name : String) (st : MockState) (protoMeta : List (String × Metadata))
      (fields : List (String × Value))

/-- The heap: objects addressed by position; allocation appends. -/
structure Heap where
  objs : List Obj

/-- The empty heap. -/
def Heap.empty : Heap := ⟨[]⟩

/-- The own properties of a heap object. -/
def objFields : Obj → List (String × Value)
  | .plain _ f => f
  | .arrayO f => f
  | .regexpO f => f
  | .collectionO => []
  | .hostO => []
  | .nativeFn _ _ f => f
  | .mockFn _ _ _ f => f

/-- Replace the own properties of a heap object (property assignment
changes nothing else; `collectionO`/`hostO` carry no modelled properties). -/
def objSetField (o : Obj) (name : String) (v : Value) : Obj :=
  match o with
  | .plain p f => .plain p (assocSet f name v)
  | .arrayO f => .arrayO (assocSet f name v)
  | .regexpO f => .regexpO (assocSet f name v)
  | .collectionO => .collectionO
  | .hostO => .hostO
  | .nativeFn n i f => .nativeFn n i (assocSet f name v)
  | .mockFn n st pm f => .mockFn n st pm (assocSet f name v)

/-- The prototype link of a heap object within the modelled graph
(see `Obj`): only `plain` objects point at modelled objects. -/
def objProtoLink : Obj → Option Nat
  | .plain p _ => p
  | _ => none

/-- Property assignment `target[name] = v`.  Assigning to a primitive is a
no-op here (the engine never does it on the paths modelled; in strict mode it
would throw). -/
def heapSetField (h : Heap) (target : Value) (name : String) (v : Value) : Heap :=
  match target with
  | .ref a =>
    match h.objs.get? a with
    | some o => ⟨h.objs.set a (objSetField o name v)⟩
    | none => h
  | _ => h

/-- Replace the closure state of the mock function at address `a`. -/
def heapSetMockSt (h : Heap) (a : Nat) (st : MockState) : Heap :=
  match h.objs.get? a with
  | some (.mockFn n _ pm f) => ⟨h.objs.set a (.mockFn n st pm f)⟩
  | _ => h

/-- Property read along the prototype chain, fuel-bounded (the chain of a
well-formed heap is shorter than the heap). -/
def readPropAux (h : Heap) : Nat → Nat → String → Value
  | 0, _, _ => .prim .undefined
  | fuel + 1, a, name =>
    match h.objs.get? a with
    | none => .prim .undefined
    | some o =>
      match assocFind (objFields o) name with
      | some v => v
      | none =>
        match objProtoLink o with
        | some p => readPropAux h fuel p name
        | none => .prim .undefined

/-- Property read `v[name]` for a value known not to be `null`/`undefined`
(reads on those throw; that path is modelled by `isMockFunction` below).
Reads on other primitives box and yield `undefined` for the names the engine
uses. -/
def readPropH (h : Heap) (v : Value) (name : String) : Value :=
  match v with
  | .ref a => readPropAux h (h.objs.length + 1) a name
  | _ => .prim .undefined

/-- Whether `slot` is an own property of `v` (`component.hasOwnProperty(slot)`). -/
def hasOwnProp (h : Heap) (v : Value) (slot : String) : Bool :=
  match v with
  | .ref a =>
    match h.objs.get? a with
    | some o => (assocFind (objFields o) slot).isSome
    | none => false
  | _ => false

/-- The classifier `getType` (source lines 82-102), with the source's
first-match precedence: function, array, object, constant (number / string /
boolean), collection (Map / WeakMap / Set), regexp, undefined, null, and
`none` for anything unrecognized. -/
def getType (h : Heap) : Value → Option String
  | .prim .undefined => some "undefined"
  | .prim .null => some "null"
  | .prim (.bool _) => some "constant"
  | .prim (.num _) => some "constant"
  | .prim (.str _) => some "constant"
  | .ref a =>
    match h.objs.get? a with
    | some (.mockFn _ _ _ _) => some "function"
    | some (.nativeFn _ _ _) => some "function"
    | some (.arrayO _) => some "array"
    | some (.plain _ _) => some "object"
    | some .collectionO => some "collection"
    | some (.regexpO _) => some "regexp"
    | some .hostO => none
    | none => none

/-- `isReadonlyProp` (source lines 104-126): intrinsic call-metadata members
of functions and intrinsic pattern-configuration members of regexps are
excluded from enumeration. -/
def isReadonlyProp (o : Obj) (prop : String) : Bool :=
  (["arguments", "caller", "callee", "name", "length"].contains prop &&
    (match o with | .mockFn _ _ _ _ => true | .nativeFn _ _ _ => true | _ => false)) ||
  (["source", "global", "ignoreCase", "multiline"].contains prop &&
    (match o with | .regexpO _ => true | _ => false))

/-- Add a slot name if not already collected (the `slots` set of `getSlots`
keeps first-seen order). -/
def addSlot (acc : List String) (s : String) : List String :=
  if s ∈ acc then acc else acc ++ [s]

/-- The chain walk of `getSlots` (source lines 134-151): collect the own,
non-readonly property names of the object and of every prototype ancestor
inside the modelled graph.  The source's loop never collects the final
`null`-prototyped link (`Object.prototype`) and breaks at
`Function.prototype`; here those built-ins lie outside the graph, so the walk
simply stops when a link leaves it.  Computed accessors and the
`__esModule` special case (line 144) are not modelled: the heap has no
accessor properties. -/
def getSlotsAux (h : Heap) : Nat → Nat → List String → List String
  | 0, _, acc => acc
  | fuel + 1, a, acc =>
    match h.objs.get? a with
    | none => acc
    | some o =>
      let acc :=
        (objFields o).foldl
          (fun ac kv => if isReadonlyProp o kv.1 then ac else addSlot ac kv.1) acc
      match objProtoLink o with
      | some p => getSlotsAux h fuel p acc
      | none => acc

/-- `getSlots(object)` (source lines 128-152) on a heap value.  A falsy or
primitive argument yields `[]` (`if (!object) return [];`; the engine never
enumerates primitives). -/
def getSlots (h : Heap) (v : Value) : List String :=
  match v with
  | .ref a => getSlotsAux h (h.objs.length + 1) a []
  | _ => []

/-- The `type` string `makeComponent` reports in its error: `metadata.type ||
'undefined type'` (source line 332); an absent or empty (falsy) type falls
back to the label `'undefined type'`. -/
def unknownTypeLabel (t : Option String) : String :=
  match t with
  | some s => if s = "" then "undefined type" else s
  | none => "undefined type"

/-- `makeComponent(metadata)` (source lines 198-335): dispatch on
`metadata.type`.  Objects, arrays and regexps become fresh empty shells;
constant / collection / null / undefined nodes return `metadata.value`
verbatim (shared identity, no copy); a function node synthesizes an
instrumented callable; anything else throws `Unrecognized type ...`.

For the function branch: the closure state starts at its defaults and, when
`metadata.mockImpl` is set, `f.mockImplementation(metadata.mockImpl)` is
applied to it (line 326-328); the behaviour-template metadata
`(metadata.members && metadata.members.prototype &&
metadata.members.prototype.members) || {}` (lines 223-227) is captured for
constructor-style calls; `f._isMockFunction = true` (line 283) becomes an own
property.  `createMockFunction` only relabels the callable (the naming
synthesizer, out of scope), so the callable is the mock object itself, and
as every JavaScript function it carries an automatic `prototype` object
whose `constructor` points back at it.  The configuration methods
(`mockClear`, `mockReturnValueOnce`, ...) are closures over the same state;
they are modelled by the flat operations on `MockState` above rather than as
heap members. -/
def makeComponent (h : Heap) (m : Metadata) : Except String (Heap × Value) :=
  if m.type = some "object" then
    .ok (⟨h.objs ++ [.plain none []]⟩, .ref h.objs.length)
  else if m.type = some "array" then
    .ok (⟨h.objs ++ [.arrayO []]⟩, .ref h.objs.length)
  else if m.type = some "regexp" then
    .ok (⟨h.objs ++ [.regexpO []]⟩, .ref h.objs.length)
  else if m.type = some "constant" ∨ m.type = some "collection" ∨
      m.type = some "null" ∨ m.type = some "undefined" then
    .ok (h, (m.value).getD (.prim .undefined))
  else if m.type = some "function" then
    let st : MockState :=
      match m.mockImpl with
      | some i => mockImplementation {} (some i)
      | none => {}
    let protoMeta : List (String × Metadata) :=
      match m.members with
      | some ms =>
        match assocFind ms "prototype" with
        | some p => (p.members).getD []
        | none => []
      | none => []
    let fa := h.objs.length
    let h1 : Heap :=
      ⟨h.objs ++
        [.mockFn ((m.name).getD "") st protoMeta
          [("_isMockFunction", .prim (.bool true)), ("prototype", .ref (fa + 1))],
         .plain none [("constructor", .ref fa)]]⟩
    .ok (h1, .ref fa)
  else
    .error ("Unrecognized type " ++ unknownTypeLabel m.type)

/-- The state threaded through `generateMock` (source lines 337-365): the
heap, the deferred assignments `callbacks` (each closure `() => mock[slot] =
refs[slotMetadata.ref]` is the triple of its captured data) and the identity
table `refs` mapping refIDs to constructed components. -/
structure GenSt where
  heap : Heap
  callbacks : List (Value × String × Nat)
  refs : List (Nat × Value)

/-- Lookup in the generation identity table (`refs[id]`, `undefined` when
absent). -/
def refsGet : List (Nat × Value) → Nat → Option Value
  | [], _ => none
  | (k, v) :: rest, i => if k = i then some v else refsGet rest i

/-- Registration in the generation identity table (`refs[metadata.refID] =
mock`, source line 344; a plain object write, so a duplicate id overwrites). -/
def refsSet : List (Nat × Value) → Nat → Value → List (Nat × Value)
  | [], i, v => [(i, v)]
  | (k, w) :: rest, i, v =>
      if k = i then (k, v) :: rest else (k, w) :: refsSet rest i v

/-- One member step of `generateMock` (source lines 347-354): a member whose
node is a back-reference (`slotMetadata.ref != null`) is deferred — a
callback is enqueued; any other member is generated recursively (`rec`) and
assigned synchronously. -/
def genMemberStep (rec : Metadata → GenSt → Except String (GenSt × Value))
    (mock : Value) (g : GenSt) (entry : String × Metadata) : Except String GenSt :=
  match entry.2.ref with
  | some r => .ok { g with callbacks := g.callbacks ++ [(mock, entry.1, r)] }
  | none => do
    let (g1, child) ← rec entry.2 g
    .ok { g1 with heap := heapSetField g1.heap mock entry.1 child }

/-- `generateMock(metadata, callbacks, refs)` (source lines 337-365), fuel
for the tree recursion (any fuel at least the metadata depth behaves like the
source).  Build the shell with `makeComponent`; register it under its
`refID` *before* walking members; walk the members (deferring
back-references); finally, unless the node is of type undefined / null, if
`mock.prototype` is truthy, relink `mock.prototype.constructor = mock`
(lines 356-362). -/
def generateMock : Nat → Metadata → GenSt → Except String (GenSt × Value)
  | 0, _, _ => .error "generation fuel exhausted"
  | fuel + 1, m, g => do
    let (h1, mock) ← makeComponent g.heap m
    let g1 : GenSt := { g with heap := h1 }
    let g2 : GenSt :=
      match m.refID with
      | some i => { g1 with refs := refsSet g1.refs i mock }
      | none => g1
    let g3 ← (memberEntries m.members).foldlM
      (genMemberStep (fun sm g' => generateMock fuel sm g') mock) g2
    let g4 : GenSt :=
      if m.type ≠ some "undefined" ∧ m.type ≠ some "null" ∧
          truthy (readPropH g3.heap mock "prototype") then
        { g3 with
          heap := heapSetField g3.heap (readPropH g3.heap mock "prototype")
            "constructor" mock }
      else g3
    .ok (g4, mock)

/-- Pass 2 of generation (source line 371): run every deferred assignment in
enqueue order, `mock[slot] = refs[ref]` against the final identity table
(`undefined` when the id was never registered). -/
def runCallbacks (refs : List (Nat × Value)) : Heap → List (Value × String × Nat) → Heap
  | h, [] => h
  | h, (mv, slot, r) :: rest =>
      runCallbacks refs (heapSetField h mv slot ((refsGet refs r).getD (.prim .undefined))) rest

/-- `generateFromMetadata(metadata)` (source lines 367-373): run
`generateMock` with fresh callbacks and identity table, then execute the
deferred assignments in order. -/
def generateFromMetadata (fuel : Nat) (m : Metadata) (h : Heap) :
    Except String (Heap × Value) := do
  let (g, mock) ← generateMock fuel m ⟨h, [], []⟩
  .ok (runCallbacks g.refs g.heap g.callbacks, mock)

/-- Membership of the object at address `t` in the prototype chain of the
object at address `a`, fuel-bounded. -/
def chainContains (h : Heap) : Nat → Nat → Nat → Bool
  | 0, _, _ => false
  | fuel + 1, a, t =>
    match h.objs.get? a with
    | some o =>
      match objProtoLink o with
      | some p => p = t || chainContains h fuel p t
      | none => false
    | none => false

/-- `v instanceof f` (the `this instanceof f` test on source line 232):
whether the object `f.prototype` refers to occurs in the prototype chain of
`v`.  Primitives are an instance of nothing; a non-object `f.prototype`
yields `false` (the modelled heaps never put a primitive there). -/
def jsInstanceOf (h : Heap) (v : Value) (f : Value) : Bool :=
  match v, readPropH h f "prototype" with
  | .ref a, .ref t => chainContains h (h.objs.length + 1) a t
  | _, _ => false

/-- Constructor-emulation member copies (source lines 234-243): for every
slot of the behaviour template whose metadata is function-typed, read the
receiver's current value of that slot (which resolves through the prototype
chain to the template's implementation), generate a fresh instrumented
callable from the slot's metadata, install it on the receiver, and remember
the original under the fresh callable's `_protoImpl` property.  `genFuel`
bounds the metadata recursion of `generateFromMetadata`. -/
def ctorInstallSlots (genFuel : Nat) (thisV : Value) :
    Heap → List (String × Metadata) → Except String Heap
  | h, [] => .ok h
  | h, (slot, sm) :: rest =>
    if sm.type = some "function" then do
      let protoImpl := readPropH h thisV slot
      let (h1, newMock) ← generateFromMetadata genFuel sm h
      let h2 := heapSetField h1 thisV slot newMock
      let h3 := heapSetField h2 newMock "_protoImpl" protoImpl
      ctorInstallSlots genFuel thisV h3 rest
    else ctorInstallSlots genFuel thisV h rest

/-- `mockConstructor` (source lines 229-280) over the heap: invocation of the
instrumented callable at address `fa` with receiver `thisV` and arguments
`args`.  First the ledger push (lines 230-231); then, if the receiver is an
instance of the callable, constructor emulation (lines 232-247): copy the
function-typed template members onto the receiver and return
`mockImpl && mockImpl.apply(this, arguments)` — the one-shot queues are not
consulted; otherwise the plain resolution of lines 249-279, where a truthy
`f._protoImpl` property may itself be another mock — that re-entrant
application consumes `fuel` (also used to bound the generation recursion of
constructor emulation). -/
def mockConstructor : Nat → Heap → Nat → Value → List Value →
    Except String (Heap × Value)
  | 0, _, _, _, _ => .error "invocation fuel exhausted"
  | fuel + 1, h, fa, thisV, args =>
    match h.objs.get? fa with
    | some (.mockFn _ st protoMeta _) =>
      -- instances.push(this); calls.push(arguments)  (lines 230-231)
      let st1 : MockState :=
        { st with instances := st.instances ++ [thisV], calls := st.calls ++ [args] }
      let h1 := heapSetMockSt h fa st1
      if jsInstanceOf h1 thisV (.ref fa) then
        -- constructor branch (lines 232-247)
        match ctorInstallSlots fuel thisV h1 protoMeta with
        | .ok h2 =>
          .ok (h2,
            match st1.mockImpl with
            | some i => applyImpl i thisV args
            | none => .prim .undefined)
        | .error e => .error e
      else
        -- plain branch (lines 249-279), as in `mockConstructorPlain`, with
        -- `f._protoImpl` read from the heap and applied as a heap callable
        let rvPair : Value × List Value :=
          if st1.isReturnValueLastSet then
            match st1.specificReturnValues with
            | [] => (st1.defaultReturnValue, [])
            | v :: rest =>
                (if v = Value.prim .undefined then st1.defaultReturnValue else v, rest)
          else (Value.prim .undefined, st1.specificReturnValues)
        let returnValue := rvPair.1
        let st2 : MockState := { st1 with specificReturnValues := rvPair.2 }
        if returnValue ≠ Value.prim .undefined then
          .ok (heapSetMockSt h fa st2, returnValue)
        else
          let shifted : Option (Option Impl) := st2.specificMockImpls.head?
          let st3 : MockState :=
            { st2 with specificMockImpls := st2.specificMockImpls.tail }
          let h3 := heapSetMockSt h fa st3
          let specificMockImpl : Option Impl :=
            match shifted with
            | some (some i) => some i
            | some none => st3.mockImpl
            | none => st3.mockImpl
          match specificMockImpl with
          | some i => .ok (h3, applyImpl i thisV args)
          | none =>
            let pv := readPropH h3 (.ref fa) "_protoImpl"
            if truthy pv then
              match pv with
              | .ref b =>
                match h3.objs.get? b with
                | some (.nativeFn _ impl _) => .ok (h3, applyImpl impl thisV args)
                | some (.mockFn _ _ _ _) => mockConstructor fuel h3 b thisV args
                | _ => .error "TypeError: _protoImpl is not a function"
              | _ => .error "TypeError: _protoImpl is not a function"
            else .ok (h3, returnValue)
    | _ => .error "TypeError: not a function"

/-- The extraction identity table (`const refs = _refs || new Map()`, source
line 379): an insertion-ordered map from components to their assigned
refIDs.  Map keys compare by identity, which on `Value` is definitional
equality (addresses for objects). -/
def Refs : Type := List (Value × Nat)

/-- `refs.get(component)` (source line 380). -/
def lookupRefs : List (Value × Nat) → Value → Option Nat
  | [], _ => none
  | (k, i) :: rest, c => if k = c then some i else lookupRefs rest c

/-- Truthiness of `component._isMockFunction` (source lines 401, 416): an
ordinary property read. -/
def isMockFn (h : Heap) (c : Value) : Bool :=
  truthy (readPropH h c "_isMockFunction")

/-- `component.getMockImplementation()` (source line 402) for an instrumented
callable: its currently configured persistent substitute implementation. -/
def getMockImplementationH (h : Heap) (c : Value) : Option Impl :=
  match c with
  | .ref a =>
    match h.objs.get? a with
    | some (.mockFn _ st _ _) => st.mockImpl
    | _ => none
  | _ => none

/-- `component.name` for a function-typed component (source line 400). -/
def funcNameOf (h : Heap) (c : Value) : Option String :=
  match c with
  | .ref a =>
    match h.objs.get? a with
    | some (.mockFn n _ _ _) => some n
    | some (.nativeFn n _ _) => some n
    | _ => none
  | _ => none

/-- `component.hasOwnProperty` is truthy: every modelled component inherits
it from `Object.prototype` (the source's first disjunct on line 423 guards
against `Object.create(null)` receivers, which the model does not contain). -/
def hasOwnPropertyFn (_h : Heap) (_c : Value) : Bool := true

/-- Loose inequality against `Object.prototype[slot]` (source line 425).
`Object.prototype` carries none of the enumerated slot names, so the right
side is `undefined`, and `x != undefined` is false exactly for `null` and
`undefined`. -/
def jsLooseNeqUndef : Value → Bool
  | .prim .undefined => false
  | .prim .null => false
  | _ => true

/-- The member-inclusion test of `getMetadata` (source lines 422-426): the
member is captured when it is an own property (via `hasOwnProperty`), or —
for plain objects — when its value differs loosely from the shared-root
default. -/
def includeSlot (h : Heap) (c : Value) (ty : String) (slot : String) : Bool :=
  (!hasOwnPropertyFn h c && !(readPropH h c slot = Value.prim .undefined)) ||
  (hasOwnPropertyFn h c && hasOwnProp h c slot) ||
  (ty = "object" && jsLooseNeqUndef (readPropH h c slot))

/-- One slot of the member walk of `getMetadata` (source lines 413-435):
skip the configuration surface of an instrumented callable (names matching
`/^mock/`); apply the inclusion test; recurse (`rec`) on the member value
threading the identity table; a `null` extraction drops the member, any
other extraction is added to the `members` mapping. -/
def getMetaMemberStep (rec : Value → List (Value × Nat) → Option Metadata × List (Value × Nat))
    (h : Heap) (c : Value) (ty : String)
    (acc : Option (List (String × Metadata)) × List (Value × Nat)) (slot : String) :
    Option (List (String × Metadata)) × List (Value × Nat) :=
  if ty = "function" && isMockFn h c && slot.startsWith "mock" then acc
  else if includeSlot h c ty slot then
    match rec (readPropH h c slot) acc.2 with
    | (some sm, refs1) => (some (membersSet acc.1 slot sm), refs1)
    | (none, refs1) => (acc.1, refs1)
  else acc

/-- The member walk of `getMetadata` (source lines 411-436): for every type
but `array` (arrays stay opaque; the inner `undefined` test of line 412 can
no longer fire here, `undefined` being a leaf), fold the member step over the
enumerated slots, starting with no `members` mapping. -/
def getMetaWalk
    (rec : Value → List (Value × Nat) → Option Metadata × List (Value × Nat))
    (h : Heap) (c : Value) (ty : String) (refs1 : List (Value × Nat)) :
    Option (List (String × Metadata)) × List (Value × Nat) :=
  if ty ≠ "array" then
    if ty ≠ "undefined" then
      (getSlots h c).foldl (getMetaMemberStep rec h c ty) (none, refs1)
    else (none, refs1)
  else (none, refs1)

/-- The prototype capture of `getMetadata` (source lines 438-447): for a
function with a truthy `prototype`, extract it (threading the identity
table); when the extraction yields a node that has members, place that node
under the `prototype` member. -/
def getMetaProto
    (rec : Value → List (Value × Nat) → Option Metadata × List (Value × Nat))
    (h : Heap) (c : Value) (ty : String)
    (walked : Option (List (String × Metadata)) × List (Value × Nat)) :
    Option (List (String × Metadata)) × List (Value × Nat) :=
  if ty = "function" ∧ truthy (readPropH h c "prototype") then
    match rec (readPropH h c "prototype") walked.2 with
    | (some p, refs2) =>
      match p.members with
      | some _ => (some (membersSet walked.1 "prototype" p), refs2)
      | none => (walked.1, refs2)
    | (none, refs2) => (walked.1, refs2)
  else walked

/-- `getMetadata(component, refs)` (source lines 375-455), fuel-bounded (the
recursion depth of the source is bounded by the number of distinct objects,
each registered in `refs` before recursing; any fuel beyond `h.objs.length +
1` behaves like the source).  Returns the node (or `null`) and the updated
identity table:

1. a component already in `refs` yields a pure back-reference node `{ref}`;
2. an unrecognized component yields `null`;
3. constant / collection / undefined / null components yield a leaf
   `{type, value}` carrying the component itself;
4. otherwise the component is registered under `refID = refs.size` *before*
   the member walk; function components also capture `name` and, when they
   are themselves instrumented, `mockImpl`;
5. members are walked for every type but `array` (arrays stay opaque), and
   for functions a truthy `prototype` whose extraction has members is placed
   under the `prototype` member. -/
def getMetadataM : Nat → Heap → Value → List (Value × Nat) →
    Option Metadata × List (Value × Nat)
  | 0, _, _, refs => (none, refs)
  | fuel + 1, h, c, refs =>
    match lookupRefs refs c with
    | some r => (some (.node none (some r) none none none none none), refs)
    | none =>
      match getType h c with
      | none => (none, refs)
      | some ty =>
        if ty = "constant" ∨ ty = "collection" ∨ ty = "undefined" ∨ ty = "null" then
          (some (.node (some ty) none none none (some c) none none), refs)
        else
          let nm : Option String := if ty = "function" then funcNameOf h c else none
          let mi : Option Impl :=
            if ty = "function" then
              (if isMockFn h c then getMockImplementationH h c else none)
            else none
          let refID := refs.length
          let refs1 := refs ++ [(c, refID)]
          let walked := getMetaWalk (fun c' rs => getMetadataM fuel h c' rs) h c ty refs1
          let withProto :=
            getMetaProto (fun c' rs => getMetadataM fuel h c' rs) h c ty walked
          (some (.node (some ty) none (some refID) nm none mi withProto.1), withProto.2)

/-- `getMetadata(component)` (public entry, source line 473): extraction with
a fresh identity table, with fuel that the source's termination argument
guarantees sufficient. -/
def getMetadata (h : Heap) (c : Value) : Option Metadata :=
  (getMetadataM (h.objs.length + 2) h c []).1

/-- `isMockFunction(fn)` (source lines 457-459): `!!fn._isMockFunction`.
The property read is unconditional, so a `null` or `undefined` argument
throws a `TypeError`; any other argument yields the truthiness of its
`_isMockFunction` property. -/
def isMockFunction (h : Heap) (v : Value) : Except String Bool :=
  match v with
  | .prim .null => .error "TypeError: Cannot read property _isMockFunction of null"
  | .prim .undefined => .error "TypeError: Cannot read property _isMockFunction of undefined"
  | _ => .ok (truthy (readPropH h v "_isMockFunction"))

/-- `getMockFunction()` (source lines 478-480): a bare function-typed mock. -/
def getMockFunction (h : Heap) : Except String (Heap × Value) :=
  makeComponent h (.node (some "function") none none none none none none)

/-- Heap evolution during generation and constructor emulation: the heap
only grows (allocation appends) and every existing mock function keeps its
name, closure state and behaviour template — only its ordinary properties
may change (property assignment).  In particular no configuration state of
an already existing mock is read or written by generation. -/
def HeapExtends (h h' : Heap) : Prop :=
  h.objs.length ≤ h'.objs.length ∧
  ∀ a nm st pm flds, h.objs.get? a = some (.mockFn nm st pm flds) →
    ∃ flds', h'.objs.get? a = some (.mockFn nm st pm flds')

/-- Well-formedness of the extraction identity table: the assigned refIDs
are exactly `0, 1, 2, ...` in insertion order (each insertion uses
`refs.size`) and no component is registered twice. -/
def RefsWF (refs : List (Value × Nat)) : Prop :=
  refs.map Prod.snd = List.range refs.length ∧ (refs.map Prod.fst).Nodup

/-- Metadata of an object whose member `self` is a back-reference to the
root's own refID: the shape `getMetadata` produces for `a = {}; a.self = a`. -/
def selfRefMeta (r : Nat) : Metadata :=
  .node (some "object") none (some r) none none none
    (some [("self", .node none (some r) none none none none none)])

/-- Metadata of an object whose members `x` and `y` denote one shared
component: `x` carries the full node registered under refID `s`, `y` is a
back-reference to `s` — the shape `getMetadata` produces for
`shared = {}; parent = {x: shared, y: shared}`. -/
def sharedPairMeta (r s : Nat) : Metadata :=
  .node (some "object") none (some r) none none none
    (some [("x", .node (some "object") none (some s) none none none none),
           ("y", .node none (some s) none none none none none)])

/-- The function-typed behaviour-template member `greet` of the
constructor-emulation scenario. -/
def greetMeta : Metadata :=
  .node (some "function") none none (some "greet") none none none

/-- A concrete heap for the constructor-emulation scenario: the instrumented
class `Foo` at address 0 — captured behaviour template `{greet}`, persistent
substitute implementation returning `9`, a queued one-shot implementation
returning `5` (which constructor mode must ignore) — its prototype object at
1 delegating `greet` to the template mock at 2, and a fresh receiver at 3
whose prototype link is `Foo.prototype` (what `new Foo()` allocates). -/
def ctorScenarioHeap : Heap :=
  ⟨[.mockFn "Foo"
      { mockImpl := some (.constFn (.prim (.num 9))),
        specificMockImpls := [some (.constFn (.prim (.num 5)))] }
      [("greet", greetMeta)]
      [("_isMockFunction", .prim (.bool true)), ("prototype", .ref 1)],
    .plain none [("constructor", .ref 0), ("greet", .ref 2)],
    .mockFn "greet" {} [] [("_isMockFunction", .prim (.bool true))],
    .plain (some 1) []]⟩

/-- A heap with an object whose member `bad` refers to a value of
unrecognized category (`hostO`) and whose member `good` is a constant. -/
def demoHostHeap : Heap :=
  ⟨[.plain none [("bad", .ref 1), ("good", .prim (.num 5))], .hostO]⟩

/-! ## Theorems

First the flat instrumented-callable runtime (override precedence, the call
ledger, clear semantics), then generation, extraction and the error
behaviours.
-/

/-- Helper: every plain invocation appends exactly its argument list to
`calls` and its receiver to `instances`, whatever branch resolves the
result. -/
theorem mockConstructorPlain_ledger (s : MockState) (p : Option Impl)
    (t : Value) (a : List Value) :
    (mockConstructorPlain s p t a).1.calls = s.calls ++ [a] ∧
    (mockConstructorPlain s p t a).1.instances = s.instances ++ [t] := by
  dsimp only [mockConstructorPlain]
  repeat' split
  all_goals exact ⟨rfl, rfl⟩

/-- C9: `mockClear` empties `calls` and `instances` and changes nothing else
of the mock-function record — the favor flag, both persistent overrides and
both one-shot queues are untouched — and the next invocation (with any
template implementation) produces exactly the value it would have produced
without the clear. -/
theorem mockClear_clears_only_ledger :
    (∀ s : MockState, mockClear s =
      { isReturnValueLastSet := s.isReturnValueLastSet,
        defaultReturnValue := s.defaultReturnValue,
        mockImpl := s.mockImpl,
        specificReturnValues := s.specificReturnValues,
        specificMockImpls := s.specificMockImpls,
        calls := [], instances := [] }) ∧
    (∀ (s : MockState) (p : Option Impl) (t : Value) (a : List Value),
      (mockConstructorPlain (mockClear s) p t a).2 =
        (mockConstructorPlain s p t a).2) := by
  refine ⟨fun s => rfl, fun s p t a => ?_⟩
  cases s
  dsimp only [mockConstructorPlain, mockClear]
  repeat' split
  all_goals rfl

/-- C4: with `favorReturnValue` (`isReturnValueLastSet`) true, plain
invocation takes the next queued one-shot return value when one is present
(consuming it), falls back to the persistent default when the queue is
empty, returns the resolved value when it is not `undefined`, and otherwise
hands resolution to the implementation family; in particular, queueing the
one-shot value `A` on a mock whose persistent default is `d` and invoking
twice yields `A` then `d` (with `d` being `undefined` when never set). -/
theorem favor_return_value_resolution :
    (∀ (s : MockState) (p : Option Impl) (t : Value) (a : List Value)
        (v : Value) (rest : List Value),
      s.isReturnValueLastSet = true → s.specificReturnValues = v :: rest →
      v ≠ Value.prim .undefined →
      (mockConstructorPlain s p t a).2 = v ∧
      (mockConstructorPlain s p t a).1.specificReturnValues = rest) ∧
    (∀ (s : MockState) (p : Option Impl) (t : Value) (a : List Value),
      s.isReturnValueLastSet = true → s.specificReturnValues = [] →
      s.defaultReturnValue ≠ Value.prim .undefined →
      (mockConstructorPlain s p t a).2 = s.defaultReturnValue) ∧
    (∀ (s : MockState) (p : Option Impl) (t : Value) (a : List Value),
      s.isReturnValueLastSet = true → rvResolve s = Value.prim .undefined →
      (mockConstructorPlain s p t a).2 = implFamilyResult s p t a) ∧
    (∀ (A d t1 t2 : Value) (a1 a2 : List Value), A ≠ Value.prim .undefined →
      (mockConstructorPlain (mockReturnValueOnce (mockReturnValue {} d) A) none t1 a1).2 = A ∧
      (mockConstructorPlain
        (mockConstructorPlain (mockReturnValueOnce (mockReturnValue {} d) A) none t1 a1).1
        none t2 a2).2 = d) := by
  refine ⟨?_, ?_, ?_, ?_⟩
  · intro s p t a v rest h1 h2 hv
    simp [mockConstructorPlain, h1, h2, hv]
  · intro s p t a h1 h2 hd
    simp [mockConstructorPlain, h1, h2, hd]
  · intro s p t a h1 h2
    rcases hq : s.specificReturnValues with _ | ⟨v, rest⟩ <;>
      simp only [rvResolve, hq] at h2
    · simp [mockConstructorPlain, implFamilyResult, h1, hq, h2]
      try repeat' split
      all_goals rfl
    · by_cases hv : v = Value.prim .undefined
      · subst hv
        simp at h2
        simp [mockConstructorPlain, implFamilyResult, h1, hq, h2]
        try repeat' split
        all_goals rfl
      · rw [if_neg hv] at h2
        exact absurd h2 hv
  · intro A d t1 t2 a1 a2 hA
    by_cases hd : d = Value.prim .undefined
    · subst hd
      refine ⟨by simp [mockConstructorPlain, mockReturnValueOnce, mockReturnValue, hA], ?_⟩
      simp [mockConstructorPlain, mockReturnValueOnce, mockReturnValue, hA]
    · refine ⟨by simp [mockConstructorPlain, mockReturnValueOnce, mockReturnValue, hA], ?_⟩
      simp [mockConstructorPlain, mockReturnValueOnce, mockReturnValue, hA, hd]

/-- C1: plain invocation resolves by the kind of the most recent
configuration call.  When the last configuration call was a return-value
setter (`isReturnValueLastSet` true) the return-value family is tried first
(one-shot queue before persistent default), and only a resolution to
`undefined` passes control to the implementation family; when it was an
implementation setter, the implementation family is tried first (one-shot
queue before persistent fallback) regardless of any configured return
values; the inherited template implementation is consulted only when the
consulted families yield nothing.  In particular, a fresh mock given a
persistent return value and then a persistent substitute implementation
returns the implementation's result. -/
theorem override_precedence :
    (∀ (s : MockState) (p : Option Impl) (t : Value) (a : List Value)
        (v : Value) (rest : List Value),
      s.isReturnValueLastSet = true → s.specificReturnValues = v :: rest →
      v ≠ Value.prim .undefined → (mockConstructorPlain s p t a).2 = v) ∧
    (∀ (s : MockState) (p : Option Impl) (t : Value) (a : List Value),
      s.isReturnValueLastSet = true → s.specificReturnValues = [] →
      s.defaultReturnValue ≠ Value.prim .undefined →
      (mockConstructorPlain s p t a).2 = s.defaultReturnValue) ∧
    (∀ (s : MockState) (p : Option Impl) (t : Value) (a : List Value)
        (i : Impl) (rest : List (Option Impl)),
      s.isReturnValueLastSet = false → s.specificMockImpls = some i :: rest →
      (mockConstructorPlain s p t a).2 = applyImpl i t a ∧
      (mockConstructorPlain s p t a).1.specificMockImpls = rest) ∧
    (∀ (s : MockState) (p : Option Impl) (t : Value) (a : List Value) (i : Impl),
      s.isReturnValueLastSet = false → s.specificMockImpls = [] →
      s.mockImpl = some i → (mockConstructorPlain s p t a).2 = applyImpl i t a) ∧
    (∀ (s : MockState) (p : Option Impl) (t : Value) (a : List Value)
        (i : Impl) (rest : List (Option Impl)),
      s.isReturnValueLastSet = true → rvResolve s = Value.prim .undefined →
      s.specificMockImpls = some i :: rest →
      (mockConstructorPlain s p t a).2 = applyImpl i t a) ∧
    (∀ (s : MockState) (pi : Impl) (t : Value) (a : List Value),
      (s.isReturnValueLastSet = true → rvResolve s = Value.prim .undefined) →
      s.specificMockImpls = [] → s.mockImpl = none →
      (mockConstructorPlain s (some pi) t a).2 = applyImpl pi t a) ∧
    (∀ (v : Value) (i : Impl) (p : Option Impl) (t : Value) (a : List Value),
      (mockConstructorPlain
        (mockImplementation (mockReturnValue {} v) (some i)) p t a).2 =
        applyImpl i t a) := by
  refine ⟨?_, ?_, ?_, ?_, ?_, ?_, ?_⟩
  · intro s p t a v rest h1 h2 hv
    simp [mockConstructorPlain, h1, h2, hv]
  · intro s p t a h1 h2 hd
    simp [mockConstructorPlain, h1, h2, hd]
  · intro s p t a i rest h1 h2
    simp [mockConstructorPlain, h1, h2]
  · intro s p t a i h1 h2 h3
    simp [mockConstructorPlain, h1, h2, h3]
  · intro s p t a i rest h1 h2 h3
    rcases hq : s.specificReturnValues with _ | ⟨v, vr⟩ <;>
      simp only [rvResolve, hq] at h2
    · simp [mockConstructorPlain, h1, h2, h3, hq]
    · by_cases hv : v = Value.prim .undefined
      · subst hv
        simp at h2
        simp [mockConstructorPlain, h1, h2, h3, hq]
      · rw [if_neg hv] at h2
        exact absurd h2 hv
  · intro s pi t a h1 h2 h3
    cases hf : s.isReturnValueLastSet
    · simp [mockConstructorPlain, hf, h2, h3]
    · have h2' := h1 hf
      rcases hq : s.specificReturnValues with _ | ⟨v, vr⟩ <;>
        simp only [rvResolve, hq] at h2'
      · simp [mockConstructorPlain, hf, h2, h3, hq, h2']
      · by_cases hv : v = Value.prim .undefined
        · subst hv
          simp at h2'
          simp [mockConstructorPlain, hf, h2, h3, hq, h2']
        · rw [if_neg hv] at h2'
          exact absurd h2' hv
  · intro v i p t a
    by_cases hv : v = Value.prim .undefined <;>
      simp [mockConstructorPlain, mockImplementation, mockReturnValue, hv]

/-- Helper: `HeapExtends` is reflexive. -/
theorem heapExtends_refl (h : Heap) : HeapExtends h h :=
  ⟨le_rfl, fun _ _ _ _ flds hg => ⟨flds, hg⟩⟩

/-- Helper: `HeapExtends` is transitive. -/
theorem heapExtends_trans {h1 h2 h3 : Heap}
    (e1 : HeapExtends h1 h2) (e2 : HeapExtends h2 h3) : HeapExtends h1 h3 := by
  refine ⟨le_trans e1.1 e2.1, fun a nm st pm flds hg => ?_⟩
  obtain ⟨f2, hf2⟩ := e1.2 a nm st pm flds hg
  exact e2.2 a nm st pm f2 hf2

/-- Helper: allocation (appending objects) extends the heap. -/
theorem append_extends (h : Heap) (l : List Obj) : HeapExtends h ⟨h.objs ++ l⟩ := by
  refine ⟨by simp, fun a nm st pm flds hb => ⟨flds, ?_⟩⟩
  have hlt : a < h.objs.length := by
    rcases List.get?_eq_some.mp hb with ⟨hlt, _⟩
    exact hlt
  rw [List.get?_eq_getElem?, List.getElem?_append_left hlt, ← List.get?_eq_getElem?]
  exact hb

/-- Helper: property assignment extends the heap (it never touches a mock's
closure state, name or behaviour template). -/
theorem heapSetField_extends (h : Heap) (t : Value) (n : String) (v : Value) :
    HeapExtends h (heapSetField h t n v) := by
  unfold heapSetField
  split
  · next a =>
    cases hga : h.objs.get? a with
    | none => exact heapExtends_refl h
    | some o =>
      refine ⟨by simp, fun b nm st pm flds hb => ?_⟩
      have hlt : a < h.objs.length := by
        rcases List.get?_eq_some.mp hga with ⟨hlt, _⟩
        exact hlt
      by_cases hab : a = b
      · subst hab
        rw [hga] at hb
        injection hb with hb
        subst hb
        refine ⟨assocSet flds n v, ?_⟩
        simp [List.get?_eq_getElem?, List.getElem?_set_self hlt, objSetField]
      · refine ⟨flds, ?_⟩
        simpa [List.get?_eq_getElem?, List.getElem?_set_ne hab] using hb
  · exact heapExtends_refl h

/-- Helper: a successful `makeComponent` only allocates (or returns the heap
unchanged). -/
theorem makeComponent_extends {h : Heap} {m : Metadata} {h' : Heap} {v : Value}
    (hok : makeComponent h m = .ok (h', v)) : HeapExtends h h' := by
  unfold makeComponent at hok
  split_ifs at hok <;>
    simp only [Except.ok.injEq, Prod.mk.injEq] at hok
  · exact hok.1 ▸ append_extends h _
  · exact hok.1 ▸ append_extends h _
  · exact hok.1 ▸ append_extends h _
  · exact hok.1 ▸ heapExtends_refl h
  · exact hok.1 ▸ append_extends h _

/-- Helper: inversion of a successful `Except` bind (the reductions are
definitional). -/
theorem except_bind_ok {α β : Type} {e : Except String α} {f : α → Except String β}
    {b : β} (h : e >>= f = .ok b) : ∃ a, e = .ok a ∧ f a = .ok b := by
  cases e with
  | error err => exact Except.noConfusion h
  | ok a => exact ⟨a, rfl, h⟩

/-- Helper: an `Except`-valued fold whose step extends the heap extends the
heap. -/
theorem foldlM_extends {β : Type} (f : GenSt → β → Except String GenSt)
    (hf : ∀ g b g', f g b = .ok g' → HeapExtends g.heap g'.heap) :
    ∀ (l : List β) (g g' : GenSt), List.foldlM f g l = .ok g' →
      HeapExtends g.heap g'.heap := by
  intro l
  induction l with
  | nil =>
    intro g g' hok
    simp only [List.foldlM_nil] at hok
    cases hok
    exact heapExtends_refl _
  | cons b rest ih =>
    intro g g' hok
    rw [List.foldlM_cons] at hok
    cases hfb : f g b with
    | error e => rw [hfb] at hok; exact Except.noConfusion hok
    | ok g1 =>
      rw [hfb] at hok
      exact heapExtends_trans (hf g b g1 hfb) (ih g1 g' hok)

/-- Helper: one member step of generation extends the heap provided the
recursive generator does. -/
theorem genMemberStep_extends
    (rec : Metadata → GenSt → Except String (GenSt × Value))
    (hrec : ∀ sm g g' v, rec sm g = .ok (g', v) → HeapExtends g.heap g'.heap)
    (mock : Value) :
    ∀ g entry g', genMemberStep rec mock g entry = .ok g' →
      HeapExtends g.heap g'.heap := by
  intro g entry g' hok
  unfold genMemberStep at hok
  split at hok
  · cases hok
    exact heapExtends_refl _
  · obtain ⟨pr, hr, hok⟩ := except_bind_ok hok
    obtain ⟨g1, child⟩ := pr
    have hok' : Except.ok
        ({ heap := heapSetField g1.heap mock entry.1 child,
           callbacks := g1.callbacks, refs := g1.refs } : GenSt) = Except.ok g' := hok
    injection hok' with hok'
    subst hok'
    exact heapExtends_trans (hrec entry.2 g g1 child hr)
      (heapSetField_extends g1.heap mock entry.1 child)

/-- Helper: `generateMock` only allocates and assigns properties: every
pre-existing mock function keeps its name, closure state and behaviour
template. -/
theorem generateMock_extends :
    ∀ (fuel : Nat) (m : Metadata) (g g' : GenSt) (v : Value),
      generateMock fuel m g = .ok (g', v) → HeapExtends g.heap g'.heap := by
  intro fuel
  induction fuel with
  | zero =>
    intro m g g' v hok
    exact Except.noConfusion hok
  | succ n ih =>
    intro m g g' v hok
    rw [generateMock] at hok
    obtain ⟨pr, hmc, hok⟩ := except_bind_ok hok
    obtain ⟨h1, mock⟩ := pr
    obtain ⟨g3, hfold, hok⟩ := except_bind_ok hok
    have hext1 : HeapExtends g.heap h1 := makeComponent_extends hmc
    have hstep : ∀ ga b ga', genMemberStep (fun sm g'' => generateMock n sm g'') mock ga b = .ok ga' →
        HeapExtends ga.heap ga'.heap :=
      fun ga b ga' hga => genMemberStep_extends _
        (fun sm gg gg' vv hh => ih sm gg gg' vv hh) mock ga b ga' hga
    have hext2 : HeapExtends h1 g3.heap := by
      cases hrid : m.refID with
      | none =>
        rw [hrid] at hfold
        exact foldlM_extends _ hstep _ _ _ hfold
      | some i =>
        rw [hrid] at hfold
        exact foldlM_extends _ hstep _ _ _ hfold
    simp only [Except.ok.injEq, Prod.mk.injEq] at hok
    obtain ⟨hg', _⟩ := hok
    subst hg'
    refine heapExtends_trans hext1 (heapExtends_trans hext2 ?_)
    split
    · exact heapSetField_extends _ _ _ _
    · exact heapExtends_refl _

/-- Helper: running the deferred assignments extends the heap. -/
theorem runCallbacks_extends (refs : List (Nat × Value)) :
    ∀ (cbs : List (Value × String × Nat)) (h : Heap),
      HeapExtends h (runCallbacks refs h cbs) := by
  intro cbs
  induction cbs with
  | nil => intro h; exact heapExtends_refl h
  | cons cb rest ih =>
    intro h
    obtain ⟨mv, slot, r⟩ := cb
    exact heapExtends_trans (heapSetField_extends h mv slot _) (ih _)

/-- Helper: `generateFromMetadata` extends the heap. -/
theorem generateFromMetadata_extends {fuel : Nat} {m : Metadata} {h h' : Heap}
    {v : Value} (hok : generateFromMetadata fuel m h = .ok (h', v)) :
    HeapExtends h h' := by
  unfold generateFromMetadata at hok
  obtain ⟨pr, hgen, hok⟩ := except_bind_ok hok
  obtain ⟨g, mock⟩ := pr
  have hok' : Except.ok (runCallbacks g.refs g.heap g.callbacks, mock)
      = Except.ok (h', v) := hok
  simp only [Except.ok.injEq, Prod.mk.injEq] at hok'
  obtain ⟨hh', _⟩ := hok'
  subst hh'
  exact heapExtends_trans
    (generateMock_extends fuel m ⟨h, [], []⟩ g mock hgen)
    (runCallbacks_extends g.refs g.callbacks g.heap)

/-- Helper: constructor-emulation member copying extends the heap. -/
theorem ctorInstallSlots_extends (genFuel : Nat) (thisV : Value) :
    ∀ (pm : List (String × Metadata)) (h h' : Heap),
      ctorInstallSlots genFuel thisV h pm = .ok h' → HeapExtends h h' := by
  intro pm
  induction pm with
  | nil =>
    intro h h' hok
    cases hok
    exact heapExtends_refl h
  | cons entry rest ih =>
    intro h h' hok
    obtain ⟨slot, sm⟩ := entry
    unfold ctorInstallSlots at hok
    split at hok
    · obtain ⟨pr, hgen, hok⟩ := except_bind_ok hok
      obtain ⟨h1, newMock⟩ := pr
      refine heapExtends_trans (generateFromMetadata_extends hgen) ?_
      refine heapExtends_trans (heapSetField_extends h1 thisV slot newMock) ?_
      refine heapExtends_trans
        (heapSetField_extends _ newMock "_protoImpl" (readPropH h thisV slot)) ?_
      exact ih _ _ hok
    · exact ih _ _ hok

/-- Helper: reading the object at the written address after a closure-state
replacement. -/
theorem heapSetMockSt_get {h : Heap} {fa : Nat} {nm : String} {st : MockState}
    {pm : List (String × Metadata)} {flds : List (String × Value)}
    (hget : h.objs.get? fa = some (.mockFn nm st pm flds)) (st1 : MockState) :
    (heapSetMockSt h fa st1).objs.get? fa = some (.mockFn nm st1 pm flds) := by
  unfold heapSetMockSt
  rw [hget]
  have hlt : fa < h.objs.length := by
    rcases List.get?_eq_some.mp hget with ⟨hlt, _⟩
    exact hlt
  simp [List.get?_eq_getElem?, List.getElem?_set_self hlt]

/-- Helper: replacing a mock's closure state preserves the heap's length. -/
theorem heapSetMockSt_length (h : Heap) (fa : Nat) (st : MockState) :
    (heapSetMockSt h fa st).objs.length = h.objs.length := by
  unfold heapSetMockSt
  split <;> simp

/-- Helper: after a closure-state replacement every address holds either the
original object or a mock function with the same name, template and fields. -/
theorem heapSetMockSt_get? (h : Heap) (fa : Nat) (st : MockState) (b : Nat) :
    (heapSetMockSt h fa st).objs.get? b = h.objs.get? b ∨
    ∃ nm st0 pm f, h.objs.get? b = some (.mockFn nm st0 pm f) ∧
      (heapSetMockSt h fa st).objs.get? b = some (.mockFn nm st pm f) := by
  unfold heapSetMockSt
  split
  · next nm st0 pm f hget =>
    by_cases hab : fa = b
    · subst hab
      have hlt : fa < h.objs.length := by
        rcases List.get?_eq_some.mp hget with ⟨hlt, _⟩
        exact hlt
      right
      exact ⟨nm, st0, pm, f, hget,
        by simp [List.get?_eq_getElem?, List.getElem?_set_self hlt]⟩
    · left
      simp [List.get?_eq_getElem?, List.getElem?_set_ne hab]
  · left; rfl

/-- Helper: property reads do not see closure state. -/
theorem readPropAux_setMockSt (h : Heap) (fa : Nat) (st : MockState) :
    ∀ (fuel a : Nat) (name : String),
      readPropAux (heapSetMockSt h fa st) fuel a name = readPropAux h fuel a name := by
  intro fuel
  induction fuel with
  | zero => intro a name; rfl
  | succ n ih =>
    intro a name
    rw [readPropAux, readPropAux]
    rcases heapSetMockSt_get? h fa st a with heq | ⟨nm, st0, pm, f, hget, hset⟩
    · rw [heq]
      cases h.objs.get? a with
      | none => rfl
      | some o =>
        dsimp only
        cases assocFind (objFields o) name with
        | some v => rfl
        | none =>
          dsimp only
          cases objProtoLink o with
          | some p => exact ih p name
          | none => rfl
    · rw [hset, hget]
      rfl

/-- Helper: prototype-chain membership does not see closure state. -/
theorem chainContains_setMockSt (h : Heap) (fa : Nat) (st : MockState) :
    ∀ (fuel a t : Nat),
      chainContains (heapSetMockSt h fa st) fuel a t = chainContains h fuel a t := by
  intro fuel
  induction fuel with
  | zero => intro a t; rfl
  | succ n ih =>
    intro a t
    rw [chainContains, chainContains]
    rcases heapSetMockSt_get? h fa st a with heq | ⟨nm, st0, pm, f, hget, hset⟩
    · rw [heq]
      cases h.objs.get? a with
      | none => rfl
      | some o =>
        dsimp only
        cases objProtoLink o with
        | some p => dsimp only; rw [ih p t]
        | none => rfl
    · rw [hset, hget]
      rfl

/-- Helper: property reads through values do not see closure state. -/
theorem readPropH_setMockSt (h : Heap) (fa : Nat) (st : MockState)
    (v : Value) (name : String) :
    readPropH (heapSetMockSt h fa st) v name = readPropH h v name := by
  unfold readPropH
  cases v with
  | prim p => rfl
  | ref a =>
    rw [heapSetMockSt_length]
    exact readPropAux_setMockSt h fa st _ a name

/-- Helper: the `instanceof` test does not see closure state. -/
theorem jsInstanceOf_setMockSt (h : Heap) (fa : Nat) (st : MockState)
    (v f : Value) :
    jsInstanceOf (heapSetMockSt h fa st) v f = jsInstanceOf h v f := by
  unfold jsInstanceOf
  rw [readPropH_setMockSt]
  cases v with
  | prim p => rfl
  | ref a =>
    cases readPropH h f "prototype" with
    | prim p => rfl
    | ref t =>
      dsimp only
      rw [heapSetMockSt_length]
      exact chainContains_setMockSt h fa st _ a t

/-- Helper: inversion of a successful constructor-style invocation: the
result value is the application of the persistent substitute implementation
(or `undefined`), and the callable's closure state afterwards is exactly the
old state with the ledger entries appended — in particular neither one-shot
queue was consulted or drained. -/
theorem mockConstructor_ctor_invert {fuel : Nat} {h : Heap} {fa : Nat}
    {nm : String} {st : MockState} {pm : List (String × Metadata)}
    {flds : List (String × Value)} {thisV : Value} {args : List Value}
    {h' : Heap} {v : Value}
    (hget : h.objs.get? fa = some (.mockFn nm st pm flds))
    (hinst : jsInstanceOf h thisV (.ref fa) = true)
    (hok : mockConstructor (fuel + 1) h fa thisV args = .ok (h', v)) :
    v = (match st.mockImpl with
         | some i => applyImpl i thisV args
         | none => Value.prim .undefined) ∧
    ∃ flds', h'.objs.get? fa = some (.mockFn nm
      { st with instances := st.instances ++ [thisV], calls := st.calls ++ [args] }
      pm flds') := by
  rw [mockConstructor] at hok
  rw [hget] at hok
  dsimp only at hok
  rw [jsInstanceOf_setMockSt] at hok
  rw [hinst] at hok
  simp only [if_true] at hok
  cases hcis : ctorInstallSlots fuel thisV
      (heapSetMockSt h fa
        { st with instances := st.instances ++ [thisV], calls := st.calls ++ [args] })
      pm with
  | error e => rw [hcis] at hok; exact Except.noConfusion hok
  | ok h2 =>
    rw [hcis] at hok
    simp only [Except.ok.injEq, Prod.mk.injEq] at hok
    obtain ⟨hh', hv⟩ := hok
    subst hh'
    refine ⟨hv.symm, ?_⟩
    have hset := heapSetMockSt_get hget
      ({ st with instances := st.instances ++ [thisV], calls := st.calls ++ [args] })
    exact (ctorInstallSlots_extends fuel thisV pm _ _ hcis).2 fa nm _ pm flds hset

/-- C8: every invocation of an instrumented callable appends exactly one
entry to each ledger.  For plain invocation: after any sequence of
invocations, `calls` is the prior ledger followed by the argument lists in
invocation order and `instances` the receivers in invocation order (so `n`
invocations from a fresh mock leave ledgers of length `n` whose `i`-th
entries are the `i`-th argument list and receiver).  For constructor-style
invocation: a successful call leaves the callable's state with exactly the
argument list appended to `calls` and the receiver appended to
`instances`. -/
theorem invocation_ledger :
    (∀ (s : MockState) (p : Option Impl) (l : List (Value × List Value)),
      (mockCalls s p l).calls = s.calls ++ l.map Prod.snd ∧
      (mockCalls s p l).instances = s.instances ++ l.map Prod.fst) ∧
    (∀ (fuel : Nat) (h : Heap) (fa : Nat) (nm : String) (st : MockState)
        (pm : List (String × Metadata)) (flds : List (String × Value))
        (thisV : Value) (args : List Value) (h' : Heap) (v : Value),
      h.objs.get? fa = some (.mockFn nm st pm flds) →
      jsInstanceOf h thisV (.ref fa) = true →
      mockConstructor (fuel + 1) h fa thisV args = .ok (h', v) →
      ∃ st' flds', h'.objs.get? fa = some (.mockFn nm st' pm flds') ∧
        st'.calls = st.calls ++ [args] ∧
        st'.instances = st.instances ++ [thisV]) := by
  constructor
  · intro s p l
    induction l generalizing s with
    | nil => simp [mockCalls]
    | cons ta rest ih =>
      obtain ⟨t, a⟩ := ta
      obtain ⟨hc, hi⟩ := mockConstructorPlain_ledger s p t a
      obtain ⟨hc', hi'⟩ := ih (mockConstructorPlain s p t a).1
      refine ⟨?_, ?_⟩
      · rw [mockCalls, hc', hc]
        simp
      · rw [mockCalls, hi', hi]
        simp
  · intro fuel h fa nm st pm flds thisV args h' v hget hinst hok
    obtain ⟨-, flds', hh⟩ := mockConstructor_ctor_invert hget hinst hok
    exact ⟨_, flds', hh, rfl, rfl⟩

/-- Witness for `invocation_ledger`: the constructor-style conjunct applied
to the concrete constructor-emulation scenario — one invocation appends one
argument list and one receiver to the class mock's ledgers. -/
theorem invocation_ledger_witness :
    ∃ h' v, mockConstructor 5 ctorScenarioHeap 0 (.ref 3) [] = .ok (h', v) ∧
      ∃ st' flds',
        h'.objs.get? 0 = some (.mockFn "Foo" st' [("greet", greetMeta)] flds') ∧
        st'.calls = [([] : List Value)] ∧ st'.instances = [.ref 3] := by
  cases hok : mockConstructor 5 ctorScenarioHeap 0 (.ref 3) [] with
  | error e => exact Except.noConfusion hok
  | ok pr =>
    obtain ⟨h', v⟩ := pr
    obtain ⟨st', flds', hh, hc, hi⟩ := invocation_ledger.2 4 ctorScenarioHeap 0 "Foo"
      { mockImpl := some (.constFn (.prim (.num 9))),
        specificMockImpls := [some (.constFn (.prim (.num 5)))] }
      [("greet", greetMeta)]
      [("_isMockFunction", .prim (.bool true)), ("prototype", .ref 1)]
      (.ref 3) [] h' v rfl rfl hok
    exact ⟨h', v, rfl, st', flds', hh, by simpa using hc, by simpa using hi⟩

/-- C3: constructor-style invocation (receiver an instance of the callable).
Generally: a successful constructor-style call returns the application of
the persistent substitute implementation to the receiver and arguments (or
`undefined` when none is configured), and afterwards the callable's closure
state is exactly the old state with the ledger entries appended — so the
one-shot queues were neither consulted nor drained.  Concretely, on the
scenario heap: the class mock's behaviour template has the function-typed
member `greet`; the call installs on the receiver a freshly allocated
instrumented callable (address `4`, one past the old heap) whose
`_protoImpl` is the template's original implementation (the mock `greet`
reached through the receiver's prototype chain), ignores the queued one-shot
implementation (returning `9` from the persistent one, not `5`), and a
second instance receives its own distinct fresh `greet`. -/
theorem constructor_emulation :
    (∀ (fuel : Nat) (h : Heap) (fa : Nat) (nm : String) (st : MockState)
        (pm : List (String × Metadata)) (flds : List (String × Value))
        (thisV : Value) (args : List Value) (h' : Heap) (v : Value),
      h.objs.get? fa = some (.mockFn nm st pm flds) →
      jsInstanceOf h thisV (.ref fa) = true →
      mockConstructor (fuel + 1) h fa thisV args = .ok (h', v) →
      v = (match st.mockImpl with
           | some i => applyImpl i thisV args
           | none => Value.prim .undefined) ∧
      ∃ flds', h'.objs.get? fa = some (.mockFn nm
        { st with instances := st.instances ++ [thisV], calls := st.calls ++ [args] }
        pm flds')) ∧
    (match mockConstructor 5 ctorScenarioHeap 0 (.ref 3) [] with
     | .ok (h', v) =>
        v = .prim (.num 9) ∧
        readPropH h' (.ref 3) "greet" = .ref 4 ∧
        (4 : Nat) = ctorScenarioHeap.objs.length ∧
        readPropH h' (.ref 4) "_protoImpl" = readPropH ctorScenarioHeap (.ref 3) "greet" ∧
        readPropH ctorScenarioHeap (.ref 3) "greet" = .ref 2 ∧
        (match mockConstructor 5 ⟨h'.objs ++ [.plain (some 1) []]⟩ 0 (.ref h'.objs.length) [] with
         | .ok (h2, _) =>
            readPropH h2 (.ref h'.objs.length) "greet" ≠ readPropH h' (.ref 3) "greet" ∧
            readPropH h2 (.ref h'.objs.length) "greet" ≠ .prim .undefined
         | .error _ => False)
     | .error _ => False) := by
  constructor
  · intro fuel h fa nm st pm flds thisV args h' v hget hinst hok
    exact mockConstructor_ctor_invert hget hinst hok
  · exact ⟨rfl, rfl, rfl, rfl, rfl, by decide, by decide⟩

/-- Witness for `constructor_emulation`: the general conjunct applied to the
concrete scenario — the result is the persistent implementation's value `9`
and the one-shot implementation queue is still intact afterwards. -/
theorem constructor_emulation_witness :
    ∃ h' v, mockConstructor 5 ctorScenarioHeap 0 (.ref 3) [] = .ok (h', v) ∧
      v = .prim (.num 9) ∧
      ∃ flds', h'.objs.get? 0 = some (.mockFn "Foo"
        { mockImpl := some (.constFn (.prim (.num 9))),
          specificMockImpls := [some (.constFn (.prim (.num 5)))],
          calls := [([] : List Value)], instances := [.ref 3] }
        [("greet", greetMeta)] flds') := by
  cases hok : mockConstructor 5 ctorScenarioHeap 0 (.ref 3) [] with
  | error e => exact Except.noConfusion hok
  | ok pr =>
    obtain ⟨h', v⟩ := pr
    obtain ⟨hv, flds', hh⟩ := constructor_emulation.1 4 ctorScenarioHeap 0 "Foo"
      { mockImpl := some (.constFn (.prim (.num 9))),
        specificMockImpls := [some (.constFn (.prim (.num 5)))] }
      [("greet", greetMeta)]
      [("_isMockFunction", .prim (.bool true)), ("prototype", .ref 1)]
      (.ref 3) [] h' v rfl rfl hok
    exact ⟨h', v, rfl, hv, flds', hh⟩

/-- Witness for `override_precedence`: a queued one-shot return value `3`
beats the persistent default `1`, and with the implementation family
favoured a queued one-shot implementation is applied. -/
theorem override_precedence_witness :
    (mockConstructorPlain
      { isReturnValueLastSet := true,
        defaultReturnValue := Value.prim (.num 1),
        specificReturnValues := [Value.prim (.num 3)] } none (.prim .null) []).2
      = .prim (.num 3) ∧
    (mockConstructorPlain
      { isReturnValueLastSet := false,
        defaultReturnValue := Value.prim (.num 1),
        specificMockImpls := [some (.constFn (.prim (.num 7)))] } none (.prim .null) []).2
      = applyImpl (.constFn (.prim (.num 7))) (.prim .null) [] := by
  constructor
  · exact override_precedence.1 _ none (.prim .null) [] (Value.prim (.num 3)) []
      rfl rfl (by decide)
  · exact (override_precedence.2.2.1 _ none (.prim .null) []
      (.constFn (.prim (.num 7))) [] rfl rfl).1

/-- Witness for `favor_return_value_resolution`: one-shot `"A"` queued over
persistent default `2`: the first invocation returns `"A"`, the second the
default. -/
theorem favor_return_value_witness :
    (mockConstructorPlain
      (mockReturnValueOnce (mockReturnValue {} (.prim (.num 2))) (.prim (.str "A")))
      none (.prim .null) []).2 = .prim (.str "A") ∧
    (mockConstructorPlain
      (mockConstructorPlain
        (mockReturnValueOnce (mockReturnValue {} (.prim (.num 2))) (.prim (.str "A")))
        none (.prim .null) []).1
      none (.prim .null) []).2 = .prim (.num 2) :=
  favor_return_value_resolution.2.2.2 (.prim (.str "A")) (.prim (.num 2))
    (.prim .null) (.prim .null) [] [] (by decide)

/-- Helper: reduction of a successful `Except` bind. -/
theorem except_ok_bind {α β : Type} (a : α) (f : α → Except String β) :
    (Except.ok a >>= f) = f a := rfl

/-- Helper: reduction of a failed `Except` bind. -/
theorem except_error_bind {α β : Type} (e : String) (f : α → Except String β) :
    ((Except.error e : Except String α) >>= f) = .error e := rfl

/-- Helper: generating the self-referential metadata (any refID `r`): the
shell is registered under `r` before its members are walked, the `self`
back-reference is deferred, and the deferred pass writes the shell itself
into its own `self` property. -/
theorem generateFromMetadata_selfRef (r : Nat) :
    generateFromMetadata 2 (selfRefMeta r) Heap.empty
      = .ok (⟨[.plain none [("self", .ref 0)]]⟩, .ref 0) := by
  simp [generateFromMetadata, generateMock, selfRefMeta, makeComponent, memberEntries,
        genMemberStep, Metadata.ref, Metadata.refID, Metadata.members, Metadata.type,
        Metadata.value, Metadata.mockImpl, Metadata.name, refsSet, refsGet, runCallbacks,
        heapSetField, readPropH, readPropAux, truthy, assocFind, objFields, objSetField,
        Heap.empty, objProtoLink, assocSet, except_ok_bind, except_error_bind]

/-- Helper: generating the shared-pair metadata (any refIDs `r`, `s`): the
member `x` is generated synchronously and registered under `s`; the member
`y` is deferred and rewired to the identity table's entry for `s` after the
tree is built. -/
theorem generateFromMetadata_sharedPair (r s : Nat) :
    generateFromMetadata 3 (sharedPairMeta r s) Heap.empty
      = .ok (⟨[.plain none [("x", .ref 1), ("y", .ref 1)], .plain none []]⟩, .ref 0) := by
  by_cases hrs : r = s
  · subst hrs
    simp [generateFromMetadata, generateMock, sharedPairMeta, makeComponent, memberEntries,
          genMemberStep, Metadata.ref, Metadata.refID, Metadata.members, Metadata.type,
          Metadata.value, Metadata.mockImpl, Metadata.name, refsSet, refsGet, runCallbacks,
          heapSetField, readPropH, readPropAux, truthy, assocFind, objFields, objSetField,
          Heap.empty, objProtoLink, assocSet, except_ok_bind, except_error_bind]
  · simp [generateFromMetadata, generateMock, sharedPairMeta, makeComponent, memberEntries,
          genMemberStep, Metadata.ref, Metadata.refID, Metadata.members, Metadata.type,
          Metadata.value, Metadata.mockImpl, Metadata.name, refsSet, refsGet, runCallbacks,
          heapSetField, readPropH, readPropAux, truthy, assocFind, objFields, objSetField,
          Heap.empty, objProtoLink, assocSet, except_ok_bind, except_error_bind, hrs]

/-- C2: `generateFromMetadata` restores shared identity.  For metadata
recording a member `self` as a back-reference to the root's refID (any `r`),
the generated mock satisfies `a'.self === a'`; for metadata whose members
`x` and `y` denote the same refID (any `r`, `s`), the generated mock
satisfies `mock.x === mock.y` (and the shared member is a real object, not
`undefined`).  This rests on each shell being registered under its refID
before its members are built, back-reference members being deferred, and
deferred assignments running after the whole tree is built. -/
theorem generate_identity_sharing :
    (∀ r : Nat,
      match generateFromMetadata 2 (selfRefMeta r) Heap.empty with
      | .ok (h, v) => readPropH h v "self" = v
      | .error _ => False) ∧
    (∀ r s : Nat,
      match generateFromMetadata 3 (sharedPairMeta r s) Heap.empty with
      | .ok (h, v) => readPropH h v "x" = readPropH h v "y" ∧
          readPropH h v "x" ≠ .prim .undefined
      | .error _ => False) := by
  constructor
  · intro r
    rw [generateFromMetadata_selfRef r]
    decide
  · intro r s
    rw [generateFromMetadata_sharedPair r s]
    exact ⟨rfl, by decide⟩

/-- C6: a metadata node whose `type` lies outside the known category set
(object, array, regexp, constant, collection, null, undefined, function)
makes `makeComponent` throw an error naming the offending type string (a
missing — or empty, hence falsy — type is reported with the fallback label
`undefined type`), and `generateFromMetadata` propagates the error, so no
mock is produced for such a node. -/
theorem unrecognized_type_error :
    (∀ (h : Heap) (t : String) (r ri : Option Nat) (nm : Option String)
        (val : Option Value) (mi : Option Impl)
        (ms : Option (List (String × Metadata))),
      t ∉ (["object", "array", "regexp", "constant", "collection", "null",
            "undefined", "function"] : List String) → t ≠ "" →
      makeComponent h (.node (some t) r ri nm val mi ms)
        = .error ("Unrecognized type " ++ t)) ∧
    (∀ (h : Heap) (r ri : Option Nat) (nm : Option String) (val : Option Value)
        (mi : Option Impl) (ms : Option (List (String × Metadata))),
      makeComponent h (.node none r ri nm val mi ms)
        = .error "Unrecognized type undefined type") ∧
    (∀ (fuel : Nat) (h : Heap) (m : Metadata) (e : String),
      makeComponent h m = .error e →
      generateFromMetadata (fuel + 1) m h = .error e) := by
  refine ⟨?_, ?_, ?_⟩
  · intro h t r ri nm val mi ms hmem hne
    simp only [List.mem_cons, List.not_mem_nil, or_false, not_or] at hmem
    obtain ⟨h1, h2, h3, h4, h5, h6, h7, h8⟩ := hmem
    simp [makeComponent, Metadata.type, Metadata.value, Metadata.mockImpl,
          Metadata.members, Metadata.name, unknownTypeLabel,
          h1, h2, h3, h4, h5, h6, h7, h8, hne]
  · intro h r ri nm val mi ms
    simp [makeComponent, Metadata.type, unknownTypeLabel]
  · intro fuel h m e herr
    rw [generateFromMetadata, generateMock]
    simp only [herr, except_error_bind]

/-- Witness for `unrecognized_type_error`: the type string `"weird"` is
rejected with an error naming it, and generation from such a node fails the
same way. -/
theorem unrecognized_type_error_witness :
    makeComponent Heap.empty (.node (some "weird") none none none none none none)
      = .error "Unrecognized type weird" ∧
    generateFromMetadata 1 (.node (some "weird") none none none none none none)
      Heap.empty = .error "Unrecognized type weird" := by
  have h1 := unrecognized_type_error.1 Heap.empty "weird" none none none none none none
    (by decide) (by decide)
  exact ⟨h1, unrecognized_type_error.2.2 0 Heap.empty _ _ h1⟩

/-- C10: `isMockFunction` reads the marker property unconditionally, so a
`null` or `undefined` argument raises a runtime `TypeError` instead of
returning `false`; for any other argument it returns the truthiness of the
argument's `_isMockFunction` property. -/
theorem isMockFunction_marker_read :
    (∀ h : Heap, isMockFunction h (.prim .null)
      = .error "TypeError: Cannot read property _isMockFunction of null") ∧
    (∀ h : Heap, isMockFunction h (.prim .undefined)
      = .error "TypeError: Cannot read property _isMockFunction of undefined") ∧
    (∀ (h : Heap) (v : Value), v ≠ .prim .null → v ≠ .prim .undefined →
      isMockFunction h v = .ok (truthy (readPropH h v "_isMockFunction"))) := by
  refine ⟨fun h => rfl, fun h => rfl, ?_⟩
  intro h v h1 h2
  cases v with
  | prim p =>
    cases p with
    | undefined => exact absurd rfl h2
    | null => exact absurd rfl h1
    | bool b => rfl
    | num n => rfl
    | str s => rfl
  | ref a => rfl

/-- Witness for `isMockFunction_marker_read`: a generated mock carries the
marker (`true`), a plain number does not (`false`). -/
theorem isMockFunction_witness :
    isMockFunction ⟨[.mockFn "f" {} [] [("_isMockFunction", .prim (.bool true))]]⟩
      (.ref 0) = .ok true ∧
    isMockFunction Heap.empty (.prim (.num 5)) = .ok false := by
  constructor
  · exact (isMockFunction_marker_read.2.2
      ⟨[.mockFn "f" {} [] [("_isMockFunction", .prim (.bool true))]]⟩ (.ref 0)
      (by decide) (by decide)).trans rfl
  · exact (isMockFunction_marker_read.2.2 Heap.empty (.prim (.num 5))
      (by decide) (by decide)).trans rfl

/-- Helper: an extraction that returns `null` never touches the identity
table (the only `null` results are the unrecognized-classification branch
and fuel exhaustion, both before any registration). -/
theorem getMetadataM_none_refs (n : Nat) (h : Heap) (c : Value)
    (refs : List (Value × Nat)) (hn : (getMetadataM n h c refs).1 = none) :
    (getMetadataM n h c refs).2 = refs := by
  cases n with
  | zero => rfl
  | succ k =>
    cases hl : lookupRefs refs c with
    | some r => rw [getMetadataM, hl] at hn; exact absurd hn (by simp)
    | none =>
      cases hg : getType h c with
      | none => rw [getMetadataM, hl, hg]
      | some ty =>
        rw [getMetadataM, hl, hg] at hn
        dsimp only at hn
        split at hn <;> simp at hn

/-- C7: a value of unrecognized classification makes `getMetadata` return
`null` rather than raise; during member extraction a member whose recursive
extraction is `null` is omitted entirely from the parent's `members`
mapping (that walk step changes nothing); and the parent node is still
produced (a full node carrying the parent's type) whenever the parent itself
classifies. -/
theorem unrecognized_soft_skip :
    (∀ (h : Heap) (c : Value), getType h c = none → getMetadata h c = none) ∧
    (∀ (n : Nat) (h : Heap) (c : Value) (ty slot : String)
        (rest : List String) (ms : Option (List (String × Metadata)))
        (refs : List (Value × Nat)),
      (ty = "function" && isMockFn h c && slot.startsWith "mock") = false →
      (getMetadataM n h (readPropH h c slot) refs).1 = none →
      List.foldl (getMetaMemberStep (fun c' rs => getMetadataM n h c' rs) h c ty)
          (ms, refs) (slot :: rest)
        = List.foldl (getMetaMemberStep (fun c' rs => getMetadataM n h c' rs) h c ty)
          (ms, refs) rest) ∧
    (∀ (n : Nat) (h : Heap) (c : Value) (refs : List (Value × Nat)) (ty : String),
      lookupRefs refs c = none → getType h c = some ty →
      ∃ m, (getMetadataM (n + 1) h c refs).1 = some m ∧ m.type = some ty) := by
  refine ⟨?_, ?_, ?_⟩
  · intro h c hg
    unfold getMetadata
    rw [getMetadataM]
    cases hl : lookupRefs ([] : List (Value × Nat)) c with
    | some r => exact absurd hl (by simp [lookupRefs])
    | none => rw [hg]
  · intro n h c ty slot rest ms refs hskip hnone
    have hrefs := getMetadataM_none_refs n h (readPropH h c slot) refs hnone
    rw [List.foldl_cons]
    have hstep : getMetaMemberStep (fun c' rs => getMetadataM n h c' rs) h c ty
        (ms, refs) slot = (ms, refs) := by
      unfold getMetaMemberStep
      simp only [hskip, Bool.false_eq_true, if_false]
      split
      · cases hres : getMetadataM n h (readPropH h c slot) refs with
        | mk o rf =>
          rw [hres] at hnone hrefs
          cases o with
          | some sm => exact absurd hnone (by simp)
          | none =>
            dsimp only at hrefs ⊢
            rw [hrefs]
      · rfl
    rw [hstep]
  · intro n h c refs ty hl hg
    rw [getMetadataM, hl, hg]
    dsimp only
    by_cases hleaf : ty = "constant" ∨ ty = "collection" ∨ ty = "undefined" ∨ ty = "null"
    · rw [if_pos hleaf]
      exact ⟨_, rfl, rfl⟩
    · rw [if_neg hleaf]
      exact ⟨_, rfl, rfl⟩

/-- Witness for `unrecognized_soft_skip`: on `demoHostHeap`, extraction of
the host object is `null`, the member walk step for `bad` changes nothing,
the parent is still produced as a full object node, and the final metadata
contains `good` but not `bad`. -/
theorem unrecognized_soft_skip_witness :
    getMetadata demoHostHeap (.ref 1) = none ∧
    List.foldl (getMetaMemberStep (fun c' rs => getMetadataM 3 demoHostHeap c' rs)
        demoHostHeap (.ref 0) "object") (none, [(.ref 0, 0)]) ["bad", "good"]
      = List.foldl (getMetaMemberStep (fun c' rs => getMetadataM 3 demoHostHeap c' rs)
        demoHostHeap (.ref 0) "object") (none, [(.ref 0, 0)]) ["good"] ∧
    (∃ m, (getMetadataM 4 demoHostHeap (.ref 0) []).1 = some m ∧
      m.type = some "object") ∧
    getMetadata demoHostHeap (.ref 0)
      = some (.node (some "object") none (some 0) none none none
          (some [("good",
            .node (some "constant") none none none (some (.prim (.num 5))) none none)])) :=
  ⟨unrecognized_soft_skip.1 demoHostHeap (.ref 1) rfl,
   unrecognized_soft_skip.2.1 3 demoHostHeap (.ref 0) "object" "bad" ["good"]
     none [(.ref 0, 0)] (by decide) rfl,
   unrecognized_soft_skip.2.2 3 demoHostHeap (.ref 0) [] "object" rfl rfl,
   rfl⟩

/-- Helper: a failed identity-table lookup means the component is not a key. -/
theorem lookupRefs_none_not_mem {refs : List (Value × Nat)} {c : Value}
    (h : lookupRefs refs c = none) : c ∉ refs.map Prod.fst := by
  induction refs with
  | nil => simp
  | cons kv rest ih =>
    obtain ⟨k, i⟩ := kv
    rw [lookupRefs] at h
    by_cases hk : k = c
    · rw [if_pos hk] at h
      exact absurd h (by simp)
    · rw [if_neg hk] at h
      simp only [List.map_cons, List.mem_cons]
      rintro (rfl | hm)
      · exact hk rfl
      · exact ih h hm

/-- Helper: registering a fresh component under the next id (`refs.size`)
preserves well-formedness of the identity table. -/
theorem refsWF_insert {refs : List (Value × Nat)} {c : Value}
    (hwf : RefsWF refs) (hl : lookupRefs refs c = none) :
    RefsWF (refs ++ [(c, refs.length)]) := by
  obtain ⟨hsnd, hfst⟩ := hwf
  constructor
  · rw [List.map_append, hsnd, List.length_append]
    simp [List.range_succ]
  · rw [List.map_append]
    rw [List.nodup_append]
    refine ⟨hfst, by simp, ?_⟩
    simp only [List.map_cons, List.map_nil, List.disjoint_singleton]
    exact lookupRefs_none_not_mem hl

/-- Helper: a fold whose step preserves table well-formedness and only
appends to the table preserves both properties. -/
theorem foldl_refs_invariant
    (step : Option (List (String × Metadata)) × List (Value × Nat) → String →
      Option (List (String × Metadata)) × List (Value × Nat))
    (hstep : ∀ acc slot, RefsWF acc.2 →
      RefsWF (step acc slot).2 ∧ ∃ t, (step acc slot).2 = acc.2 ++ t) :
    ∀ (slots : List String) (acc), RefsWF acc.2 →
      RefsWF (List.foldl step acc slots).2 ∧
      ∃ t, (List.foldl step acc slots).2 = acc.2 ++ t := by
  intro slots
  induction slots with
  | nil =>
    intro acc hwf
    exact ⟨hwf, [], by simp⟩
  | cons s rest ih =>
    intro acc hwf
    rw [List.foldl_cons]
    obtain ⟨hwf1, t1, ht1⟩ := hstep acc s hwf
    obtain ⟨hwf2, t2, ht2⟩ := ih (step acc s) hwf1
    exact ⟨hwf2, t1 ++ t2, by rw [ht2, ht1, List.append_assoc]⟩

/-- Helper: one member step preserves table well-formedness and only appends,
provided the recursive extraction does. -/
theorem getMetaMemberStep_invariant
    (rec : Value → List (Value × Nat) → Option Metadata × List (Value × Nat))
    (hrec : ∀ c refs, RefsWF refs →
      RefsWF (rec c refs).2 ∧ ∃ t, (rec c refs).2 = refs ++ t)
    (h : Heap) (c : Value) (ty : String) :
    ∀ acc slot, RefsWF acc.2 →
      RefsWF (getMetaMemberStep rec h c ty acc slot).2 ∧
      ∃ t, (getMetaMemberStep rec h c ty acc slot).2 = acc.2 ++ t := by
  intro acc slot hwf
  unfold getMetaMemberStep
  split
  · exact ⟨hwf, [], by simp⟩
  split
  · cases hres : rec (readPropH h c slot) acc.2 with
    | mk o rf =>
      obtain ⟨hwf', t, ht⟩ := hrec (readPropH h c slot) acc.2 hwf
      rw [hres] at hwf' ht
      cases o with
      | some sm => exact ⟨hwf', t, ht⟩
      | none => exact ⟨hwf', t, ht⟩
  · exact ⟨hwf, [], by simp⟩

/-- Helper: the member walk preserves table well-formedness and only
appends, provided the recursive extraction does. -/
theorem getMetaWalk_invariant
    (rec : Value → List (Value × Nat) → Option Metadata × List (Value × Nat))
    (hrec : ∀ c refs, RefsWF refs →
      RefsWF (rec c refs).2 ∧ ∃ t, (rec c refs).2 = refs ++ t)
    (h : Heap) (c : Value) (ty : String) (refs1 : List (Value × Nat))
    (hwf : RefsWF refs1) :
    RefsWF (getMetaWalk rec h c ty refs1).2 ∧
    ∃ t, (getMetaWalk rec h c ty refs1).2 = refs1 ++ t := by
  unfold getMetaWalk
  split
  · split
    · exact foldl_refs_invariant _ (getMetaMemberStep_invariant rec hrec h c ty) _ _ hwf
    · exact ⟨hwf, [], by simp⟩
  · exact ⟨hwf, [], by simp⟩

/-- Helper: the prototype capture preserves table well-formedness and only
appends, provided the recursive extraction does. -/
theorem getMetaProto_invariant
    (rec : Value → List (Value × Nat) → Option Metadata × List (Value × Nat))
    (hrec : ∀ c refs, RefsWF refs →
      RefsWF (rec c refs).2 ∧ ∃ t, (rec c refs).2 = refs ++ t)
    (h : Heap) (c : Value) (ty : String)
    (walked : Option (List (String × Metadata)) × List (Value × Nat))
    (hwf : RefsWF walked.2) :
    RefsWF (getMetaProto rec h c ty walked).2 ∧
    ∃ t, (getMetaProto rec h c ty walked).2 = walked.2 ++ t := by
  unfold getMetaProto
  split
  · cases hres : rec (readPropH h c "prototype") walked.2 with
    | mk o rf =>
      obtain ⟨hwf', t, ht⟩ := hrec (readPropH h c "prototype") walked.2 hwf
      rw [hres] at hwf' ht
      cases o with
      | none => exact ⟨hwf', t, ht⟩
      | some p =>
        dsimp only
        cases p.members with
        | some pm => exact ⟨hwf', t, ht⟩
        | none => exact ⟨hwf', t, ht⟩
  · exact ⟨hwf, [], by simp⟩

/-- Helper: the identity-table invariant for every extraction: given a
well-formed table, the table after any (fuel-bounded) extraction is
well-formed and an append-only extension. -/
theorem getMetadataM_refs_invariant :
    ∀ (n : Nat) (h : Heap) (c : Value) (refs : List (Value × Nat)),
      RefsWF refs →
      RefsWF (getMetadataM n h c refs).2 ∧
      ∃ t, (getMetadataM n h c refs).2 = refs ++ t := by
  intro n
  induction n with
  | zero =>
    intro h c refs hwf
    exact ⟨hwf, [], by simp [getMetadataM]⟩
  | succ k ih =>
    intro h c refs hwf
    cases hl : lookupRefs refs c with
    | some r =>
      rw [getMetadataM, hl]
      exact ⟨hwf, [], by simp⟩
    | none =>
      cases hg : getType h c with
      | none =>
        rw [getMetadataM, hl, hg]
        exact ⟨hwf, [], by simp⟩
      | some ty =>
        rw [getMetadataM, hl, hg]
        dsimp only
        by_cases hleaf : ty = "constant" ∨ ty = "collection" ∨ ty = "undefined" ∨ ty = "null"
        · rw [if_pos hleaf]
          exact ⟨hwf, [], by simp⟩
        · rw [if_neg hleaf]
          dsimp only
          have hwf1 : RefsWF (refs ++ [(c, refs.length)]) := refsWF_insert hwf hl
          have hrec : ∀ (c' : Value) (rs : List (Value × Nat)), RefsWF rs →
              RefsWF (getMetadataM k h c' rs).2 ∧
              ∃ t, (getMetadataM k h c' rs).2 = rs ++ t :=
            fun c' rs hw => ih h c' rs hw
          obtain ⟨hWwf, t1, ht1⟩ := getMetaWalk_invariant _ hrec h c ty _ hwf1
          obtain ⟨hPwf, t2, ht2⟩ := getMetaProto_invariant _ hrec h c ty
            (getMetaWalk (fun c' rs => getMetadataM k h c' rs) h c ty
              (refs ++ [(c, refs.length)])) hWwf
          refine ⟨hPwf, [(c, refs.length)] ++ t1 ++ t2, ?_⟩
          rw [ht2, ht1]
          simp [List.append_assoc]

/-- C5: within one extraction call, identity sharing and refID density.
(1) Starting from a well-formed identity table — in particular the fresh
table of a top-level call — the table after any extraction is an append-only
extension whose assigned refIDs are exactly `0, 1, 2, ...` in insertion
(visitation) order, with no component registered twice; (2) a component
already registered (already extracted in this call) yields exactly the pure
back-reference node `{ref}` carrying its recorded refID, and registers
nothing; (3) a not-yet-registered component of non-leaf type is registered
under the next dense id `refs.size` as the first extension of the table —
the one full extraction of that identity in this call. -/
theorem extraction_identity_invariant :
    (∀ (n : Nat) (h : Heap) (c : Value) (refs : List (Value × Nat)),
      RefsWF refs →
      RefsWF (getMetadataM n h c refs).2 ∧
      ∃ t, (getMetadataM n h c refs).2 = refs ++ t) ∧
    (∀ (n : Nat) (h : Heap) (c : Value) (refs : List (Value × Nat)) (r : Nat),
      lookupRefs refs c = some r →
      getMetadataM (n + 1) h c refs
        = (some (.node none (some r) none none none none none), refs)) ∧
    (∀ (n : Nat) (h : Heap) (c : Value) (refs : List (Value × Nat)) (ty : String),
      RefsWF refs →
      lookupRefs refs c = none → getType h c = some ty →
      ¬(ty = "constant" ∨ ty = "collection" ∨ ty = "undefined" ∨ ty = "null") →
      ∃ t, (getMetadataM (n + 1) h c refs).2 = (refs ++ [(c, refs.length)]) ++ t) := by
  refine ⟨getMetadataM_refs_invariant, ?_, ?_⟩
  · intro n h c refs r hl
    rw [getMetadataM, hl]
  · intro n h c refs ty hwf hl hg hleaf
    rw [getMetadataM, hl, hg]
    dsimp only
    rw [if_neg hleaf]
    dsimp only
    have hwf1 := refsWF_insert hwf hl
    have hrec : ∀ (c' : Value) (rs : List (Value × Nat)), RefsWF rs →
        RefsWF (getMetadataM n h c' rs).2 ∧
        ∃ t, (getMetadataM n h c' rs).2 = rs ++ t :=
      fun c' rs hw => getMetadataM_refs_invariant n h c' rs hw
    obtain ⟨hWwf, t1, ht1⟩ := getMetaWalk_invariant _ hrec h c ty _ hwf1
    obtain ⟨hPwf, t2, ht2⟩ := getMetaProto_invariant _ hrec h c ty
      (getMetaWalk (fun c' rs => getMetadataM n h c' rs) h c ty
        (refs ++ [(c, refs.length)])) hWwf
    exact ⟨t1 ++ t2, by rw [ht2, ht1, List.append_assoc]⟩

/-- Witness for `extraction_identity_invariant`: a self-referential object
(`a.a === a`): the table after extraction is well-formed and append-only, a
registered component yields the `{ref}` node, and the fresh object is
registered under the next dense id. -/
theorem extraction_identity_witness :
    (RefsWF (getMetadataM 3 ⟨[.plain none [("a", .ref 0)]]⟩ (.ref 0) []).2 ∧
      ∃ t, (getMetadataM 3 ⟨[.plain none [("a", .ref 0)]]⟩ (.ref 0) []).2 = [] ++ t) ∧
    getMetadataM 3 ⟨[.plain none [("a", .ref 0)]]⟩ (.ref 0) [(.ref 0, 5)]
      = (some (.node none (some 5) none none none none none), [(.ref 0, 5)]) ∧
    (∃ t, (getMetadataM 3 ⟨[.plain none [("a", .ref 0)]]⟩ (.ref 0) []).2
      = ([] ++ [(.ref 0, 0)]) ++ t) :=
  ⟨extraction_identity_invariant.1 3 _ (.ref 0) [] ⟨rfl, List.nodup_nil⟩,
   extraction_identity_invariant.2.1 2 _ (.ref 0) [(.ref 0, 5)] 5 rfl,
   extraction_identity_invariant.2.2 2 _ (.ref 0) [] "object" ⟨rfl, List.nodup_nil⟩
     rfl rfl (by decide)⟩
